import Mathlib

/-!
Shallow embedding of mini-caffe's `src/net.cpp` (`caffe::Net`): graph
filtering by NetState rules, graph assembly (AppendTop/AppendBottom with
blob lifetime tracking), forward execution with blob release, trained-weight
copying, and name-indexed lookups.  C++ `LOG(FATAL)` / failed `CHECK`
aborts are modelled as `Except.error` with the message text.
-/

namespace Caffe

/-- Execution phase enum from the proto (`caffe.Phase`). -/
inductive Phase where
  | TRAIN
  | TEST
deriving DecidableEq, Repr

/-- Mirrors proto message `NetStateRule`: optional phase, optional min/max
level, lists of required stages and forbidden stages. -/
structure NetStateRule where
  phase : Option Phase
  min_level : Option Int
  max_level : Option Int
  stage : List String
  not_stage : List String
deriving DecidableEq, Repr

/-- Mirrors proto message `NetState`: phase, level, stage labels. -/
structure NetState where
  phase : Phase
  level : Int
  stage : List String
deriving DecidableEq, Repr

/-- Mirrors proto message `BlobProto` as used by `Net::CopyTrainedLayersFrom`:
a shape and raw data. -/
structure BlobProto where
  shape : List Nat
  data : List Int
deriving DecidableEq, Repr

/-- Mirrors the parts of proto message `LayerParameter` that `net.cpp`
reads: name, type, bottom/top blob names, include/exclude rules, and (for
trained nets) the learnable blobs. -/
structure LayerParameter where
  name : String
  ltype : String
  bottom : List String
  top : List String
  include_rules : List NetStateRule
  exclude_rules : List NetStateRule
  blobs : List BlobProto
deriving DecidableEq, Repr

/-- Mirrors the parts of proto message `NetParameter` that `net.cpp` reads. -/
structure NetParameter where
  name : String
  state : NetState
  layer : List LayerParameter
deriving DecidableEq, Repr

/-- Embeds `StateMeetsRule` (net.cpp:101): returns whether `state` meets
`rule`.  Each `if` mirrors one early-return check of the C++ body, in
order: phase, min_level, max_level, stage, not_stage. -/
def StateMeetsRule (state : NetState) (rule : NetStateRule) : Bool :=
  if rule.phase.any (fun p => p != state.phase) then false
  else if rule.min_level.any (fun m => state.level < m) then false
  else if rule.max_level.any (fun m => m < state.level) then false
  else if rule.stage.any (fun s => !(state.stage.contains s)) then false
  else if rule.not_stage.any (fun s => state.stage.contains s) then false
  else true

/-- Embeds the per-layer `layer_included` computation of `Net::FilterNet`
(net.cpp:178-188): included by default iff no include rules; any met
exclude rule turns it off; any met include rule turns it on. -/
def layerIncluded (state : NetState) (lp : LayerParameter) : Bool :=
  let inc0 := lp.include_rules.isEmpty
  let inc1 := inc0 && !(lp.exclude_rules.any (fun r => StateMeetsRule state r))
  inc1 || lp.include_rules.any (fun r => StateMeetsRule state r)

/-- Embeds `Net::FilterNet` (net.cpp:166): walks the layer list in order,
fails (the C++ `CHECK`) when a layer has both include and exclude rules,
otherwise keeps exactly the layers `layerIncluded` accepts. -/
def FilterNet (state : NetState) : List LayerParameter → Except String (List LayerParameter)
  | [] => .ok []
  | lp :: rest =>
    if !lp.include_rules.isEmpty && !lp.exclude_rules.isEmpty then
      .error "Specify either include rules or exclude rules; not both."
    else
      match FilterNet state rest with
      | .error e => .error e
      | .ok tail => .ok (if layerIncluded state lp then lp :: tail else tail)

/-- Lookup in an association list used to model `std::map<string,int>`
(`blob_name_to_idx`, `blob_names_index_`, `layer_names_index_`). -/
def mapLookup (m : List (String × Nat)) (k : String) : Option Nat :=
  match m with
  | [] => none
  | p :: rest => if p.1 = k then some p.2 else mapLookup rest k

/-- Models `std::map::operator[]` read access: returns the mapped value,
value-initialising (to 0) and inserting the key when absent, as C++ does. -/
def mapGet (m : List (String × Nat)) (k : String) : List (String × Nat) × Nat :=
  match mapLookup m k with
  | some v => (m, v)
  | none => (m ++ [(k, 0)], 0)

/-- Models `std::map::operator[] = v` write access: overwrites the value
for `k`, inserting when absent. -/
def mapSet (m : List (String × Nat)) (k : String) (v : Nat) : List (String × Nat) :=
  match m with
  | [] => [(k, v)]
  | p :: rest => if p.1 = k then (k, v) :: rest else p :: mapSet rest k v

/-- Models `std::set<string>::insert`: no duplicates. -/
def setInsert (l : List String) (x : String) : List String :=
  if x ∈ l then l else l ++ [x]

/-- State threaded through `Net::Init`'s assembly loop: the `Net` fields
that `AppendTop` / `AppendBottom` (net.cpp:196-247) read and write, plus
the local `available_blobs` set and `blob_name_to_idx` map of `Net::Init`.
A blob's storage is not modelled here (blobs are identified by id =
position in `blob_names`); `blob_life_time` is indexed by blob id.
`bottom_id_vecs` / `top_id_vecs` hold one entry per already-processed
layer. -/
structure AsmState where
  blob_names : List String
  blob_life_time : List Nat
  blob_name_to_idx : List (String × Nat)
  available_blobs : List String
  bottom_id_vecs : List (List Nat)
  top_id_vecs : List (List Nat)
deriving DecidableEq, Repr

def AsmState.empty : AsmState :=
  ⟨[], [], [], [], [], []⟩

/-- Embeds `Net::AppendBottom` (net.cpp:232): the bottom name must be in
`available_blobs` (else `LOG(FATAL)` "Unknown bottom blob"); resolves the
blob id through `blob_name_to_idx`, extends the blob's life time to at
least `layer_id`, erases the name from `available_blobs`, and returns the
blob id (the caller collects it into `bottom_id_vecs[layer_id]`). -/
def AppendBottom (layer_id : Nat) (blob_name : String) (s : AsmState) :
    Except String (AsmState × Nat) :=
  if blob_name ∉ s.available_blobs then
    .error ("Unknown bottom blob " ++ blob_name)
  else
    let (m, blob_id) := mapGet s.blob_name_to_idx blob_name
    .ok ({ s with
            blob_name_to_idx := m,
            blob_life_time :=
              s.blob_life_time.set blob_id
                (max (s.blob_life_time.getD blob_id 0) layer_id),
            available_blobs := s.available_blobs.erase blob_name },
         blob_id)

/-- Embeds `Net::AppendTop` (net.cpp:196): the top name (or "(automatic)"
when past the top list, as in the C++ ternary); in-place when the
equally-positioned bottom name equals it (reuse the id, extend life to
`layer_id + 1`); otherwise fatal when the name is already in
`blob_name_to_idx` ("produced by multiple sources"); otherwise allocate a
fresh blob with initial life `layer_id + 1`.  All branches insert the name
into `available_blobs`.  Returns the top blob id used (the caller collects
it into `top_id_vecs[layer_id]`). -/
def AppendTop (layer_id top_id : Nat) (lp : LayerParameter) (s : AsmState) :
    Except String (AsmState × Nat) :=
  let blob_name := lp.top.getD top_id "(automatic)"
  if top_id < lp.bottom.length ∧ blob_name = lp.bottom.getD top_id "" then
    let (m, blob_id) := mapGet s.blob_name_to_idx blob_name
    .ok ({ s with
            blob_name_to_idx := m,
            blob_life_time :=
              s.blob_life_time.set blob_id
                (max (s.blob_life_time.getD blob_id 0) (layer_id + 1)),
            available_blobs := setInsert s.available_blobs blob_name },
         blob_id)
  else if (mapLookup s.blob_name_to_idx blob_name).isSome then
    .error ("Top blob " ++ blob_name ++ " produced by multiple sources.")
  else
    let blob_id := s.blob_names.length
    .ok ({ s with
            blob_names := s.blob_names ++ [blob_name],
            blob_life_time := s.blob_life_time ++ [layer_id + 1],
            blob_name_to_idx := s.blob_name_to_idx ++ [(blob_name, blob_id)],
            available_blobs := setInsert s.available_blobs blob_name },
         blob_id)

/-- Folds `AppendBottom` over a layer's bottom names (the bottom loop of
`Net::Init`, net.cpp:57-59), collecting the resolved ids in order. -/
def appendBottoms (layer_id : Nat) (names : List String) (s : AsmState) :
    Except String (AsmState × List Nat) :=
  match names with
  | [] => .ok (s, [])
  | n :: rest =>
    match AppendBottom layer_id n s with
    | .error e => .error e
    | .ok (s', id) =>
      match appendBottoms layer_id rest s' with
      | .error e => .error e
      | .ok (s'', ids) => .ok (s'', id :: ids)

/-- Folds `AppendTop` over a layer's top indices (the top loop of
`Net::Init`, net.cpp:61-69), collecting the top ids in order. -/
def appendTops (layer_id : Nat) (lp : LayerParameter) (top_id : Nat)
    (remaining : Nat) (s : AsmState) : Except String (AsmState × List Nat) :=
  match remaining with
  | 0 => .ok (s, [])
  | r + 1 =>
    match AppendTop layer_id top_id lp s with
    | .error e => .error e
    | .ok (s', id) =>
      match appendTops layer_id lp (top_id + 1) r s' with
      | .error e => .error e
      | .ok (s'', ids) => .ok (s'', id :: ids)

/-- Embeds the body of `Net::Init`'s per-layer loop (net.cpp:50-77): wire
all bottoms, then all tops, then record this layer's id lists.  The
layer's `SetUp` call and `AppendParam` are the external node contract and
the parameter binder; they do not touch the assembly state modelled
here. -/
def initLayer (layer_id : Nat) (lp : LayerParameter) (s : AsmState) :
    Except String AsmState :=
  match appendBottoms layer_id lp.bottom s with
  | .error e => .error e
  | .ok (s', bids) =>
    match appendTops layer_id lp 0 lp.top.length s' with
    | .error e => .error e
    | .ok (s'', tids) =>
      .ok { s'' with
              bottom_id_vecs := s''.bottom_id_vecs ++ [bids],
              top_id_vecs := s''.top_id_vecs ++ [tids] }

/-- The whole assembly loop of `Net::Init` over a (filtered,
split-adjusted) layer list, starting at `layer_id`. -/
def initLayersGo (layer_id : Nat) (layers : List LayerParameter)
    (s : AsmState) : Except String AsmState :=
  match layers with
  | [] => .ok s
  | lp :: rest =>
    match initLayer layer_id lp s with
    | .error e => .error e
    | .ok s' => initLayersGo (layer_id + 1) rest s'

def initLayers (layers : List LayerParameter) : Except String AsmState :=
  initLayersGo 0 layers AsmState.empty

/-- Builds `blob_names_index_` / `layer_names_index_` (net.cpp:92-97):
`index[names[id]] = id` for ascending id, later ids overwriting. -/
def buildNameIndex (names : List String) : List (String × Nat) :=
  (names.enum).foldl (fun m p => mapSet m p.2 p.1) []

/-- Pins the blobs in `ids` to life time `v` (net.cpp:89-91 sets the first
layer's top blobs to `layers_.size()`). -/
def pinBlobs (life : List Nat) (ids : List Nat) (v : Nat) : List Nat :=
  ids.foldl (fun l b => l.set b v) life

/-- The assembled net: the `Net` fields that `ForwardFromTo`,
`CopyTrainedLayersFrom` and the by-name accessors read. -/
structure NetObj where
  layer_names : List String
  layer_types : List String
  blob_names : List String
  blob_life_time : List Nat
  bottom_id_vecs : List (List Nat)
  top_id_vecs : List (List Nat)
  blob_names_index : List (String × Nat)
  layer_names_index : List (String × Nat)
deriving DecidableEq, Repr

/-- The body of `Net::Init` after the phase `CHECK_EQ` (net.cpp:30-97):
filters the layers, assembles them, checks the first layer is an Input
layer (line 78; an empty layer list makes `layers_[0]` an out-of-range
access, modelled as the same fatal error), pins the first layer's top
blobs to live for the whole net, and builds the name indexes.
`InsertSplits` is an external collaborator (spec §2); the description is
taken as already split-adjusted. -/
def NetInitChecked (in_param : NetParameter) : Except String NetObj :=
  match FilterNet in_param.state in_param.layer with
    | .error e => .error e
    | .ok filtered =>
      match initLayers filtered with
      | .error e => .error e
      | .ok s =>
        match filtered with
        | [] => .error "Networks first layer should be Input Layer."
        | first :: _ =>
          if first.ltype ≠ "Input" then
            .error "Networks first layer should be Input Layer."
          else
            .ok { layer_names := filtered.map (fun lp => lp.name),
                  layer_types := filtered.map (fun lp => lp.ltype),
                  blob_names := s.blob_names,
                  blob_life_time :=
                    pinBlobs s.blob_life_time (s.top_id_vecs.getD 0 [])
                      filtered.length,
                  bottom_id_vecs := s.bottom_id_vecs,
                  top_id_vecs := s.top_id_vecs,
                  blob_names_index := buildNameIndex s.blob_names,
                  layer_names_index :=
                    buildNameIndex (filtered.map (fun lp => lp.name)) }

/-- Embeds `Net::Init` (net.cpp:28): the phase `CHECK_EQ` of line 29, then
the body. -/
def NetInit (in_param : NetParameter) : Except String NetObj :=
  if in_param.state.phase ≠ Phase.TEST then
    .error "CHECK_EQ failed: in_param.state().phase() == TEST"
  else
    NetInitChecked in_param

/-- Embeds the `Net::Net(const string&)` constructor (net.cpp:21): `param`
stands for the description parsed from the file by the external
`ReadNetParamsFromTextFileOrDie`; line 24 forcibly sets the phase to TEST
before `Init`. -/
def NetConstruct (param : NetParameter) : Except String NetObj :=
  NetInit { param with state := { param.state with phase := Phase.TEST } }

/-! Forward execution.  A blob's storage is modelled by one `Bool` per blob
id (`true` = allocated); `Blob::Release` sets it to `false`.  The layer's
`Forward` compute call is the external node contract and does not touch
storage liveness. -/

/-- The release loop run after layer `i` forwards (net.cpp:291-295): every
bottom blob of layer `i` whose life time is ≤ `i` is released. -/
def releaseBottoms (life : List Nat) (i : Nat) (bids : List Nat)
    (alive : List Bool) : List Bool :=
  bids.foldl (fun al b => if life.getD b 0 ≤ i then al.set b false else al)
    alive

/-- One iteration of the `ForwardFromTo` loop at layer index `i`. -/
def ForwardStep (net : NetObj) (i : Nat) (alive : List Bool) : List Bool :=
  releaseBottoms net.blob_life_time i (net.bottom_id_vecs.getD i []) alive

/-- Runs `ForwardStep` for `count` consecutive layers starting at `i`. -/
def forwardLoop (net : NetObj) (i count : Nat) (alive : List Bool) :
    List Bool :=
  match count with
  | 0 => alive
  | c + 1 => forwardLoop net (i + 1) c (ForwardStep net i alive)

/-- All blobs allocated: the storage state in which a forward pass starts. -/
def allAlive (net : NetObj) : List Bool :=
  List.replicate net.blob_names.length true

/-- The storage state after the full-pass prefix of steps `0, …, j-1`
(so `runTo net j` is the state right before layer `j` forwards, and
`runTo net (i+1)` the state right after layer `i`'s release loop). -/
def runTo (net : NetObj) (j : Nat) : List Bool :=
  forwardLoop net 0 j (allAlive net)

/-- Embeds `Net::ForwardFromTo` (net.cpp:281): checks the range (the
`CHECK_GE`/`CHECK_LT`; `start ≥ 0` is inherent in `Nat`), then runs the
inclusive range `[start, last]`. -/
def ForwardFromTo (net : NetObj) (start last : Nat) (alive : List Bool) :
    Except String (List Bool) :=
  if last < net.layer_names.length then
    .ok (forwardLoop net start (last + 1 - start) alive)
  else
    .error "CHECK_LT failed: end < layers_.size()"

/-! Weight loading (`Net::CopyTrainedLayersFrom`, net.cpp:313).  The
learnable blobs live in the layer objects (`layers_[i]->blobs()`), filled
by the external `SetUp` contract; they are modelled as a per-layer blob
list. -/

/-- A learnable tensor buffer of an assembled layer. -/
structure Blob where
  shape : List Nat
  data : List Int
deriving DecidableEq, Repr

/-- An assembled layer as the weight loader sees it: its name and its
learnable blobs. -/
structure NetLayer where
  name : String
  blobs : List Blob
deriving DecidableEq, Repr

/-- Modelled from the spec: the external tensor-buffer collaborator's
shape-as-string diagnostic (`Blob::shape_string`, spec §6; blob.cpp is not
part of the analysed source). -/
def shape_string (shape : List Nat) : String :=
  String.intercalate " " (shape.map toString)

/-- Modelled from the spec: the external tensor-buffer collaborator's
shape equality check (`Blob::ShapeEquals`, spec §6; blob.cpp is not part
of the analysed source). -/
def ShapeEquals (b : Blob) (p : BlobProto) : Bool :=
  b.shape == p.shape

/-- Modelled from the spec: `Blob::FromProto` with reshape flag off copies
the foreign raw data verbatim and leaves the shape unchanged (spec §4.7
and §6; blob.cpp is not part of the analysed source). -/
def FromProtoNoReshape (b : Blob) (p : BlobProto) : Blob :=
  { b with data := p.data }

/-- The fatal shape-mismatch message of net.cpp:335-340: names the
offending layer and describes the source and target shapes. -/
def mismatchMsg (lname : String) (srcShape tgtShape : List Nat) : String :=
  "Cannot copy param weights from layer " ++ lname ++
    "; shape mismatch. Source param shape is " ++ shape_string srcShape ++
    "; target param shape is " ++ shape_string tgtShape

/-- The inner blob loop of `CopyTrainedLayersFrom` (net.cpp:330-344):
copies blob pairs in order; at the first shape mismatch it stops with the
fatal message, leaving that blob and all later ones untouched (earlier
ones are already overwritten, as in the C++ in-place mutation before the
abort). -/
def copyLayerBlobs (lname : String) :
    List Blob → List BlobProto → List Blob × Option String
  | [], _ => ([], none)
  | t :: ts, [] => (t :: ts, none)
  | t :: ts, p :: ps =>
    if ShapeEquals t p then
      let r := copyLayerBlobs lname ts ps
      (FromProtoNoReshape t p :: r.1, r.2)
    else (t :: ts, some (mismatchMsg lname p.shape t.shape))

/-- Embeds `Net::CopyTrainedLayersFrom(const NetParameter&)`
(net.cpp:313): for each source layer in order, find the first target layer
of the same name (linear scan, net.cpp:318-322); skip when absent; fatal
when the blob counts differ (the `CHECK_EQ`, net.cpp:328); otherwise copy
blob-by-blob with the shape check.  Returns the (possibly partially
mutated) layer list together with the fatal message when the load aborted
— the C++ `LOG(FATAL)` kills the process with exactly that memory state. -/
def CopyTrainedLayersFrom (layers : List NetLayer) :
    List LayerParameter → List NetLayer × Option String
  | [] => (layers, none)
  | src :: rest =>
    match layers.findIdx? (fun l => l.name == src.name) with
    | none => CopyTrainedLayersFrom layers rest
    | some i =>
      if (layers.getD i ⟨"", []⟩).blobs.length ≠ src.blobs.length then
        (layers, some ("Incompatible number of blobs for layer " ++ src.name))
      else
        match copyLayerBlobs src.name (layers.getD i ⟨"", []⟩).blobs
            src.blobs with
        | (newBlobs, some msg) =>
          (layers.set i ⟨(layers.getD i ⟨"", []⟩).name, newBlobs⟩, some msg)
        | (newBlobs, none) =>
          CopyTrainedLayersFrom
            (layers.set i ⟨(layers.getD i ⟨"", []⟩).name, newBlobs⟩) rest

/-! Name-indexed lookups (net.cpp:375-395). -/

/-- Outcome of a by-name accessor.  `fatalAbort` is a failed `CHECK`
(`LOG(FATAL)`: the process aborts); `lookupMiss` is the non-fatal
not-found indication the design document's error taxonomy describes — the
code's by-name accessors never produce it, which is what claim C2 is
about. -/
inductive LookupOutcome (α : Type) where
  | found (value : α)
  | fatalAbort (msg : String)
  | lookupMiss
deriving DecidableEq, Repr

/-- Embeds `Net::has_blob` (net.cpp:375). -/
def has_blob (net : NetObj) (blob_name : String) : Bool :=
  (mapLookup net.blob_names_index blob_name).isSome

/-- Embeds `Net::blob_by_name` (net.cpp:379): `CHECK(has_blob(...))`
aborts fatally on an unknown name; otherwise the blob (by id) is
returned. -/
def blob_by_name (net : NetObj) (blob_name : String) : LookupOutcome Nat :=
  if has_blob net blob_name then
    .found ((mapLookup net.blob_names_index blob_name).getD 0)
  else
    .fatalAbort ("Unknown blob name " ++ blob_name)

/-- Embeds `Net::has_layer` (net.cpp:386). -/
def has_layer (net : NetObj) (layer_name : String) : Bool :=
  (mapLookup net.layer_names_index layer_name).isSome

/-- Embeds `Net::layer_by_name` (net.cpp:390): `CHECK(has_layer(...))`
aborts fatally on an unknown name; otherwise the layer (by id) is
returned. -/
def layer_by_name (net : NetObj) (layer_name : String) : LookupOutcome Nat :=
  if has_layer net layer_name then
    .found ((mapLookup net.layer_names_index layer_name).getD 0)
  else
    .fatalAbort ("Unknown layer name " ++ layer_name)

/-! Helper lemmas about lists and the association-list maps. -/

/-- The recorded last-use index of blob `b` (out-of-range ids read as 0,
matching that they are never written). -/
def lifeOf (s : AsmState) (b : Nat) : Nat :=
  s.blob_life_time.getD b 0

theorem getD_set_self {α : Type} (l : List α) (i : Nat) (v d : α)
    (h : i < l.length) : (l.set i v).getD i d = v := by
  simp [List.getD_eq_getElem?_getD, List.getElem?_set_self', h]

theorem getD_set_ne {α : Type} (l : List α) (i b : Nat) (v d : α)
    (h : b ≠ i) : (l.set i v).getD b d = l.getD b d := by
  simp [List.getD_eq_getElem?_getD, List.getElem?_set_ne (Ne.symm h)]

theorem getD_append_lt {α : Type} (l : List α) (x : α) (b : Nat) (d : α)
    (h : b < l.length) : (l ++ [x]).getD b d = l.getD b d := by
  simp [List.getD_eq_getElem?_getD, List.getElem?_append_left h]

theorem getD_append_len {α : Type} (l : List α) (x : α) (d : α) :
    (l ++ [x]).getD l.length d = x := by
  simp [List.getD_eq_getElem?_getD]

theorem getD_oob {α : Type} (l : List α) (b : Nat) (d : α)
    (h : l.length ≤ b) : l.getD b d = d := by
  simp [List.getD_eq_getElem?_getD, List.getElem?_eq_none h]

theorem getD_append_gt {α : Type} (l : List α) (x : α) (b : Nat) (d : α)
    (h : l.length < b) : (l ++ [x]).getD b d = d := by
  apply getD_oob
  simp
  omega

theorem mapLookup_append_of_some (m : List (String × Nat)) (q : String × Nat)
    (k : String) (v : Nat) (h : mapLookup m k = some v) :
    mapLookup (m ++ [q]) k = some v := by
  induction m with
  | nil => simp [mapLookup] at h
  | cons p rest ih =>
    by_cases hk : p.1 = k
    · simpa [mapLookup, hk] using by simpa [mapLookup, hk] using h
    · simp [mapLookup, hk] at h ⊢
      exact ih h

theorem mapLookup_append_self (m : List (String × Nat)) (k : String)
    (v : Nat) (h : mapLookup m k = none) :
    mapLookup (m ++ [(k, v)]) k = some v := by
  induction m with
  | nil => simp [mapLookup]
  | cons p rest ih =>
    by_cases hk : p.1 = k
    · simp [mapLookup, hk] at h
    · simp [mapLookup, hk] at h ⊢
      exact ih h

theorem mapLookup_append_isSome (m : List (String × Nat)) (q : String × Nat)
    (k : String) (h : (mapLookup m k).isSome) :
    (mapLookup (m ++ [q]) k).isSome := by
  obtain ⟨v, hv⟩ := Option.isSome_iff_exists.mp h
  simp [mapLookup_append_of_some m q k v hv]

theorem mapLookup_mem (m : List (String × Nat)) (k : String) (v : Nat)
    (h : mapLookup m k = some v) : (k, v) ∈ m := by
  induction m with
  | nil => simp [mapLookup] at h
  | cons p rest ih =>
    by_cases hk : p.1 = k
    · simp [mapLookup, hk] at h
      exact List.mem_cons.mpr (Or.inl (by cases p; simp_all))
    · simp [mapLookup, hk] at h
      exact List.mem_cons_of_mem p (ih h)

theorem setInsert_mem (l : List String) (x y : String) (h : y ∈ l) :
    y ∈ setInsert l x := by
  unfold setInsert
  split <;> simp [h]

theorem setInsert_mem_self (l : List String) (x : String) :
    x ∈ setInsert l x := by
  unfold setInsert
  split <;> simp_all

theorem mem_of_setInsert (l : List String) (x y : String)
    (h : y ∈ setInsert l x) : y = x ∨ y ∈ l := by
  unfold setInsert at h
  split at h <;> simp_all [or_comm]

/-! Normal forms of the two assembly steps in their non-failing cases. -/

/-- When the bottom name is available and mapped, `AppendBottom` succeeds
and performs exactly: extend the blob's life to at least `layer_id`, erase
the name from the available set. -/
theorem appendBottom_ok (layer_id : Nat) (blob_name : String) (s : AsmState)
    (v : Nat) (hav : blob_name ∈ s.available_blobs)
    (hm : mapLookup s.blob_name_to_idx blob_name = some v) :
    AppendBottom layer_id blob_name s =
      .ok ({ s with
              blob_life_time :=
                s.blob_life_time.set v
                  (max (s.blob_life_time.getD v 0) layer_id),
              available_blobs := s.available_blobs.erase blob_name },
           v) := by
  unfold AppendBottom mapGet
  simp [hav, hm]

/-- In-place `AppendTop` with the top name already mapped: reuses the
mapped id, extends its life to at least `layer_id + 1`, re-inserts the
name into the available set, allocates nothing. -/
theorem appendTop_inplace_ok (layer_id top_id : Nat) (lp : LayerParameter)
    (s : AsmState) (v : Nat)
    (hip : top_id < lp.bottom.length ∧
      lp.top.getD top_id "(automatic)" = lp.bottom.getD top_id "")
    (hm : mapLookup s.blob_name_to_idx (lp.top.getD top_id "(automatic)") =
      some v) :
    AppendTop layer_id top_id lp s =
      .ok ({ s with
              blob_life_time :=
                s.blob_life_time.set v
                  (max (s.blob_life_time.getD v 0) (layer_id + 1)),
              available_blobs :=
                setInsert s.available_blobs
                  (lp.top.getD top_id "(automatic)") },
           v) := by
  unfold AppendTop mapGet
  rw [if_pos hip]
  simp only [List.getD_eq_getElem?_getD] at hm
  simp [hm]

/-- Non-in-place `AppendTop` with a fresh name: allocates blob id
`s.blob_names.length` with initial life `layer_id + 1`. -/
theorem appendTop_fresh_ok (layer_id top_id : Nat) (lp : LayerParameter)
    (s : AsmState)
    (hip : ¬(top_id < lp.bottom.length ∧
      lp.top.getD top_id "(automatic)" = lp.bottom.getD top_id ""))
    (hm : mapLookup s.blob_name_to_idx (lp.top.getD top_id "(automatic)") =
      none) :
    AppendTop layer_id top_id lp s =
      .ok ({ s with
              blob_names :=
                s.blob_names ++ [lp.top.getD top_id "(automatic)"],
              blob_life_time := s.blob_life_time ++ [layer_id + 1],
              blob_name_to_idx :=
                s.blob_name_to_idx ++
                  [(lp.top.getD top_id "(automatic)", s.blob_names.length)],
              available_blobs :=
                setInsert s.available_blobs
                  (lp.top.getD top_id "(automatic)") },
           s.blob_names.length) := by
  unfold AppendTop
  rw [if_neg hip]
  simp only [List.getD_eq_getElem?_getD] at hm
  simp [hm]

/-- The in-place condition of `AppendTop` (net.cpp:204-205): the k-th top
name equals the equally-positioned bottom name. -/
def isInPlace (lp : LayerParameter) (top_id : Nat) : Prop :=
  top_id < lp.bottom.length ∧
    lp.top.getD top_id "(automatic)" = lp.bottom.getD top_id ""

instance (lp : LayerParameter) (top_id : Nat) :
    Decidable (isInPlace lp top_id) := by
  unfold isInPlace
  infer_instance

theorem getD_mem {α : Type} (l : List α) (i : Nat) (d : α)
    (h : i < l.length) : l.getD i d ∈ l := by
  rw [List.getD_eq_getElem?_getD, List.getElem?_eq_getElem h]
  exact List.getElem_mem h

/-- The well-formedness invariant `Net::Init` maintains over `AsmState`:
life times and names run in parallel, the map sends names to in-range
ids, every available or registered name is mapped, blob names are
distinct, recorded bottom/top ids are in range, and every recorded reader
index is covered by its blob's life time. -/
structure AsmInv (s : AsmState) : Prop where
  life_len : s.blob_life_time.length = s.blob_names.length
  idx_lt : ∀ p ∈ s.blob_name_to_idx, p.2 < s.blob_names.length
  avail_idx : ∀ n ∈ s.available_blobs, (mapLookup s.blob_name_to_idx n).isSome
  names_idx : ∀ n ∈ s.blob_names, (mapLookup s.blob_name_to_idx n).isSome
  names_nodup : s.blob_names.Nodup
  bots_lt : ∀ ids ∈ s.bottom_id_vecs, ∀ b ∈ ids, b < s.blob_names.length
  tops_lt : ∀ ids ∈ s.top_id_vecs, ∀ b ∈ ids, b < s.blob_names.length
  readers : ∀ j, ∀ b ∈ s.bottom_id_vecs.getD j [], j ≤ lifeOf s b

theorem asmInv_empty : AsmInv AsmState.empty := by
  constructor <;> simp [AsmState.empty, lifeOf]

/-- Everything one `AppendBottom` success changes, relative to `AsmInv`. -/
theorem appendBottom_step (lid : Nat) (n : String) (s s' : AsmState)
    (bid : Nat) (inv : AsmInv s) (h : AppendBottom lid n s = .ok (s', bid)) :
    AsmInv s' ∧
    s'.blob_names = s.blob_names ∧
    s'.bottom_id_vecs = s.bottom_id_vecs ∧
    s'.top_id_vecs = s.top_id_vecs ∧
    s'.blob_name_to_idx = s.blob_name_to_idx ∧
    (∀ b, lifeOf s b ≤ lifeOf s' b) ∧
    (∀ b, lifeOf s' b ≤ max (lifeOf s b) lid) ∧
    lid ≤ lifeOf s' bid ∧
    bid < s.blob_names.length := by
  have hav : n ∈ s.available_blobs := by
    by_contra hc
    simp [AppendBottom, hc] at h
  obtain ⟨v, hv⟩ := Option.isSome_iff_exists.mp (inv.avail_idx n hav)
  rw [appendBottom_ok lid n s v hav hv] at h
  have hpair := Except.ok.inj h
  have hid : v = bid := (Prod.ext_iff.mp hpair).2
  have hs := (Prod.ext_iff.mp hpair).1
  subst v
  subst hs
  have hvlt : bid < s.blob_names.length := inv.idx_lt _ (mapLookup_mem _ _ _ hv)
  have hvlife : bid < s.blob_life_time.length := by rw [inv.life_len]; exact hvlt
  have hmono : ∀ b, lifeOf s b ≤
      (s.blob_life_time.set bid
        (max (s.blob_life_time.getD bid 0) lid)).getD b 0 := by
    intro b
    by_cases hb : b = bid
    · subst hb
      rw [getD_set_self _ _ _ _ hvlife]
      exact le_max_left _ _
    · rw [getD_set_ne _ _ _ _ _ hb]
      exact le_refl _
  have hboundv : ∀ b, (s.blob_life_time.set bid
      (max (s.blob_life_time.getD bid 0) lid)).getD b 0 ≤
        max (lifeOf s b) lid := by
    intro b
    by_cases hb : b = bid
    · subst hb
      rw [getD_set_self _ _ _ _ hvlife]
      exact le_refl _
    · rw [getD_set_ne _ _ _ _ _ hb]
      exact le_max_left _ _
  refine ⟨?_, rfl, rfl, rfl, rfl, hmono, hboundv, ?_, hvlt⟩
  · constructor
    · simpa using inv.life_len
    · simpa using inv.idx_lt
    · intro m hm
      exact inv.avail_idx m (List.mem_of_mem_erase hm)
    · simpa using inv.names_idx
    · simpa using inv.names_nodup
    · simpa using inv.bots_lt
    · simpa using inv.tops_lt
    · intro j b hb
      exact le_trans (inv.readers j b hb) (hmono b)
  · simp only [lifeOf]
    rw [getD_set_self _ _ _ _ hvlife]
    exact le_max_right _ _

/-- The failing case of `AppendBottom`: the name is not available. -/
theorem appendBottom_error (lid : Nat) (n : String) (s : AsmState)
    (hav : n ∉ s.available_blobs) :
    AppendBottom lid n s = .error ("Unknown bottom blob " ++ n) := by
  simp [AppendBottom, hav]

/-- The failing case of `AppendTop`: not in-place and the name is already
mapped. -/
theorem appendTop_dup_error (lid tid : Nat) (lp : LayerParameter)
    (s : AsmState)
    (hip : ¬(tid < lp.bottom.length ∧
      lp.top.getD tid "(automatic)" = lp.bottom.getD tid ""))
    (hm : (mapLookup s.blob_name_to_idx (lp.top.getD tid "(automatic)")).isSome) :
    AppendTop lid tid lp s =
      .error ("Top blob " ++ lp.top.getD tid "(automatic)" ++
        " produced by multiple sources.") := by
  unfold AppendTop
  rw [if_neg hip]
  simp only [List.getD_eq_getElem?_getD] at hm
  simp [hm]

/-- Everything one `AppendTop` success changes, relative to `AsmInv`.
Hypothesis `hbot` (all of this layer's bottom names are already mapped)
holds because the layer's bottoms are appended first; it covers the
in-place branch's map read. -/
theorem appendTop_step (lid tid : Nat) (lp : LayerParameter)
    (s s' : AsmState) (bid : Nat) (inv : AsmInv s)
    (hbot : ∀ x ∈ lp.bottom, (mapLookup s.blob_name_to_idx x).isSome)
    (h : AppendTop lid tid lp s = .ok (s', bid)) :
    AsmInv s' ∧
    s'.bottom_id_vecs = s.bottom_id_vecs ∧
    s'.top_id_vecs = s.top_id_vecs ∧
    s.blob_names.length ≤ s'.blob_names.length ∧
    (∀ b, lifeOf s b ≤ lifeOf s' b) ∧
    (∀ b, lifeOf s' b ≤ max (lifeOf s b) (lid + 1)) ∧
    (∀ x, (mapLookup s.blob_name_to_idx x).isSome →
      (mapLookup s'.blob_name_to_idx x).isSome) ∧
    bid < s'.blob_names.length ∧
    s'.blob_names.length =
      s.blob_names.length + (if isInPlace lp tid then 0 else 1) := by
  by_cases hip : isInPlace lp tid
  · obtain ⟨hip1, hip2⟩ := hip
    have hmem : lp.top.getD tid "(automatic)" ∈ lp.bottom := by
      rw [hip2]
      exact getD_mem _ _ _ hip1
    obtain ⟨v, hv⟩ := Option.isSome_iff_exists.mp (hbot _ hmem)
    rw [appendTop_inplace_ok lid tid lp s v ⟨hip1, hip2⟩ hv] at h
    simp only [Except.ok.injEq, Prod.mk.injEq] at h
    obtain ⟨hs, hid⟩ := h
    subst v
    subst hs
    have hvlt : bid < s.blob_names.length :=
      inv.idx_lt _ (mapLookup_mem _ _ _ hv)
    have hvlife : bid < s.blob_life_time.length := by
      rw [inv.life_len]
      exact hvlt
    have hmono : ∀ b, lifeOf s b ≤
        (s.blob_life_time.set bid
          (max (s.blob_life_time.getD bid 0) (lid + 1))).getD b 0 := by
      intro b
      by_cases hb : b = bid
      · subst hb
        rw [getD_set_self _ _ _ _ hvlife]
        exact le_max_left _ _
      · rw [getD_set_ne _ _ _ _ _ hb]
        exact le_refl _
    have hbound : ∀ b, (s.blob_life_time.set bid
        (max (s.blob_life_time.getD bid 0) (lid + 1))).getD b 0 ≤
          max (lifeOf s b) (lid + 1) := by
      intro b
      by_cases hb : b = bid
      · subst hb
        rw [getD_set_self _ _ _ _ hvlife]
        exact le_refl _
      · rw [getD_set_ne _ _ _ _ _ hb]
        exact le_max_left _ _
    refine ⟨?_, rfl, rfl, le_refl _, hmono, hbound, ?_, hvlt,
      by rw [if_pos (show isInPlace lp tid from ⟨hip1, hip2⟩)]; simp⟩
    · constructor
      · simpa using inv.life_len
      · simpa using inv.idx_lt
      · intro m hm
        rcases mem_of_setInsert _ _ _ hm with hm2 | hm2
        · subst hm2
          simp only [List.getD_eq_getElem?_getD] at hv
          simp [hv]
        · exact inv.avail_idx m hm2
      · simpa using inv.names_idx
      · simpa using inv.names_nodup
      · simpa using inv.bots_lt
      · simpa using inv.tops_lt
      · intro j b hb
        exact le_trans (inv.readers j b hb) (hmono b)
    · intro x hx
      simpa using hx
  · have hip2 : ¬(tid < lp.bottom.length ∧
        lp.top.getD tid "(automatic)" = lp.bottom.getD tid "") := by
      simpa [isInPlace] using hip
    cases hm : mapLookup s.blob_name_to_idx (lp.top.getD tid "(automatic)") with
    | some v =>
      rw [appendTop_dup_error lid tid lp s hip2 (by rw [hm]; rfl)] at h
      cases h
    | none =>
      rw [appendTop_fresh_ok lid tid lp s hip2 hm] at h
      simp only [Except.ok.injEq, Prod.mk.injEq] at h
      obtain ⟨hs, hid⟩ := h
      subst bid
      subst hs
      generalize hname : lp.top.getD tid "(automatic)" = nm at hm ⊢
      have hnm : nm ∉ s.blob_names := by
        intro hmem
        have := inv.names_idx _ hmem
        rw [hm] at this
        cases this
      have hmono : ∀ b, lifeOf s b ≤
          (s.blob_life_time ++ [lid + 1]).getD b 0 := by
        intro b
        simp only [lifeOf]
        rcases lt_trichotomy b s.blob_life_time.length with hb | hb | hb
        · rw [getD_append_lt _ _ _ _ hb]
        · subst hb
          rw [getD_oob s.blob_life_time _ _ (le_refl _), getD_append_len]
          exact Nat.zero_le _
        · rw [getD_oob s.blob_life_time _ _ (le_of_lt hb),
            getD_append_gt _ _ _ _ hb]
      have hbound : ∀ b, (s.blob_life_time ++ [lid + 1]).getD b 0 ≤
          max (lifeOf s b) (lid + 1) := by
        intro b
        rcases lt_trichotomy b s.blob_life_time.length with hb | hb | hb
        · rw [getD_append_lt _ _ _ _ hb]
          exact le_max_left _ _
        · subst hb
          rw [getD_append_len]
          exact le_max_right _ _
        · rw [getD_append_gt _ _ _ _ hb]
          exact Nat.zero_le _
      refine ⟨?_, rfl, rfl, by simp, hmono, hbound, ?_, by simp, ?_⟩
      · constructor
        · simp [inv.life_len]
        · intro p hp
          rcases List.mem_append.mp hp with hp2 | hp2
          · have := inv.idx_lt p hp2
            simp
            omega
          · simp at hp2
            subst hp2
            simp
        · intro m hm2
          rcases mem_of_setInsert _ _ _ hm2 with h2 | h2
          · subst h2
            simp [mapLookup_append_self _ _ _ hm]
          · exact mapLookup_append_isSome _ _ _ (inv.avail_idx m h2)
        · intro m hm2
          rcases List.mem_append.mp hm2 with h2 | h2
          · exact mapLookup_append_isSome _ _ _ (inv.names_idx m h2)
          · simp at h2
            subst h2
            simp [mapLookup_append_self _ _ _ hm]
        · refine List.Nodup.append inv.names_nodup (List.nodup_singleton _) ?_
          intro a ha hb
          simp at hb
          subst hb
          exact hnm ha
        · intro ids hids b hb
          have := inv.bots_lt ids hids b hb
          simp
          omega
        · intro ids hids b hb
          have := inv.tops_lt ids hids b hb
          simp
          omega
        · intro j b hb
          exact le_trans (inv.readers j b hb) (hmono b)
      · intro x hx
        exact mapLookup_append_isSome _ _ _ hx
      · rw [if_neg hip]
        simp

/-- Number of non-in-place top positions among `remaining` tops starting
at position `tid`: the buffers those tops allocate. -/
def nonInPlaceCountFrom (lp : LayerParameter) (tid remaining : Nat) : Nat :=
  match remaining with
  | 0 => 0
  | r + 1 =>
    (if isInPlace lp tid then 0 else 1) + nonInPlaceCountFrom lp (tid + 1) r

/-- Number of buffers a layer allocates: its non-in-place top positions. -/
def nonInPlaceCount (lp : LayerParameter) : Nat :=
  nonInPlaceCountFrom lp 0 lp.top.length

/-- Number of buffers an assembled layer list allocates. -/
def totalNonInPlace : List LayerParameter → Nat
  | [] => 0
  | lp :: rest => nonInPlaceCount lp + totalNonInPlace rest

/-- Folding `AppendBottom` over a layer's bottom names, relative to
`AsmInv`. -/
theorem appendBottoms_fold (lid : Nat) (names : List String)
    (s s' : AsmState) (ids : List Nat) (inv : AsmInv s)
    (h : appendBottoms lid names s = .ok (s', ids)) :
    AsmInv s' ∧
    s'.blob_names = s.blob_names ∧
    s'.bottom_id_vecs = s.bottom_id_vecs ∧
    s'.top_id_vecs = s.top_id_vecs ∧
    s'.blob_name_to_idx = s.blob_name_to_idx ∧
    (∀ b, lifeOf s b ≤ lifeOf s' b) ∧
    (∀ b, lifeOf s' b ≤ max (lifeOf s b) lid) ∧
    (∀ b ∈ ids, lid ≤ lifeOf s' b ∧ b < s.blob_names.length) ∧
    (∀ x ∈ names, (mapLookup s.blob_name_to_idx x).isSome) := by
  induction names generalizing s ids with
  | nil =>
    simp only [appendBottoms, Except.ok.injEq, Prod.mk.injEq] at h
    obtain ⟨hs, hids⟩ := h
    subst hs
    subst hids
    exact ⟨inv, rfl, rfl, rfl, rfl, fun b => le_refl _,
      fun b => le_max_left _ _, by simp, by simp⟩
  | cons n rest ih =>
    cases hab : AppendBottom lid n s with
    | error e =>
      simp only [appendBottoms, hab] at h
      cases h
    | ok pair1 =>
      obtain ⟨s1, id1⟩ := pair1
      cases hrest : appendBottoms lid rest s1 with
      | error e =>
        simp only [appendBottoms, hab, hrest] at h
        cases h
      | ok pair2 =>
        obtain ⟨s2, ids2⟩ := pair2
        simp only [appendBottoms, hab, hrest, Except.ok.injEq,
          Prod.mk.injEq] at h
        obtain ⟨hs, hids⟩ := h
        subst hs
        subst hids
        have hav : n ∈ s.available_blobs := by
          by_contra hc
          rw [appendBottom_error lid n s hc] at hab
          cases hab
        obtain ⟨inv1, hnames1, hbv1, htv1, hmap1, hmono1, hbound1, hlife1,
          hlt1⟩ := appendBottom_step lid n s s1 id1 inv hab
        obtain ⟨inv2, hnames2, hbv2, htv2, hmap2, hmono2, hbound2, hids2,
          hmaps2⟩ := ih s1 ids2 inv1 hrest
        refine ⟨inv2, hnames2.trans hnames1, hbv2.trans hbv1,
          htv2.trans htv1, hmap2.trans hmap1,
          fun b => le_trans (hmono1 b) (hmono2 b), ?_, ?_, ?_⟩
        · intro b
          have h1 := hbound2 b
          have h2 := hbound1 b
          omega
        · intro b hb
          rcases List.mem_cons.mp hb with hb1 | hb1
          · subst hb1
            exact ⟨le_trans hlife1 (hmono2 b), hlt1⟩
          · obtain ⟨h1, h2⟩ := hids2 b hb1
            rw [hnames1] at h2
            exact ⟨h1, h2⟩
        · intro x hx
          rcases List.mem_cons.mp hx with hx1 | hx1
          · subst hx1
            exact inv.avail_idx x hav
          · rw [← hmap1]
            exact hmaps2 x hx1

/-- Folding `AppendTop` over a layer's top positions, relative to
`AsmInv`. -/
theorem appendTops_fold (lid : Nat) (lp : LayerParameter)
    (tid r : Nat) (s s' : AsmState) (ids : List Nat) (inv : AsmInv s)
    (hbot : ∀ x ∈ lp.bottom, (mapLookup s.blob_name_to_idx x).isSome)
    (h : appendTops lid lp tid r s = .ok (s', ids)) :
    AsmInv s' ∧
    s'.bottom_id_vecs = s.bottom_id_vecs ∧
    s'.top_id_vecs = s.top_id_vecs ∧
    s.blob_names.length ≤ s'.blob_names.length ∧
    (∀ b, lifeOf s b ≤ lifeOf s' b) ∧
    (∀ b, lifeOf s' b ≤ max (lifeOf s b) (lid + 1)) ∧
    (∀ b ∈ ids, b < s'.blob_names.length) ∧
    s'.blob_names.length =
      s.blob_names.length + nonInPlaceCountFrom lp tid r := by
  induction r generalizing tid s ids with
  | zero =>
    simp only [appendTops, Except.ok.injEq, Prod.mk.injEq] at h
    obtain ⟨hs, hids⟩ := h
    subst hs
    subst hids
    exact ⟨inv, rfl, rfl, le_refl _, fun b => le_refl _,
      fun b => le_max_left _ _, by simp, by simp [nonInPlaceCountFrom]⟩
  | succ r ih =>
    cases hat : AppendTop lid tid lp s with
    | error e =>
      simp only [appendTops, hat] at h
      cases h
    | ok pair1 =>
      obtain ⟨s1, id1⟩ := pair1
      cases hrest : appendTops lid lp (tid + 1) r s1 with
      | error e =>
        simp only [appendTops, hat, hrest] at h
        cases h
      | ok pair2 =>
        obtain ⟨s2, ids2⟩ := pair2
        simp only [appendTops, hat, hrest, Except.ok.injEq,
          Prod.mk.injEq] at h
        obtain ⟨hs, hids⟩ := h
        subst hs
        subst hids
        obtain ⟨inv1, hbv1, htv1, hlen1, hmono1, hbound1, hmapmono1, hlt1,
          hcount1⟩ := appendTop_step lid tid lp s s1 id1 inv hbot hat
        obtain ⟨inv2, hbv2, htv2, hlen2, hmono2, hbound2, hids2, hcount2⟩ :=
          ih (tid + 1) s1 ids2 inv1
            (fun x hx => hmapmono1 x (hbot x hx)) hrest
        refine ⟨inv2, hbv2.trans hbv1, htv2.trans htv1,
          le_trans hlen1 hlen2,
          fun b => le_trans (hmono1 b) (hmono2 b), ?_, ?_, ?_⟩
        · intro b
          have h1 := hbound2 b
          have h2 := hbound1 b
          omega
        · intro b hb
          rcases List.mem_cons.mp hb with hb1 | hb1
          · subst hb1
            omega
          · exact hids2 b hb1
        · rw [hcount2, hcount1]
          simp only [nonInPlaceCountFrom]
          omega

/-- One layer of `Net::Init`'s loop, relative to `AsmInv` plus the
per-layer bookkeeping (vector lengths and the life-time bound). -/
theorem initLayer_step (lid : Nat) (lp : LayerParameter) (s s' : AsmState)
    (inv : AsmInv s)
    (hbl : s.bottom_id_vecs.length = lid)
    (htl : s.top_id_vecs.length = lid)
    (hlife : ∀ b, lifeOf s b ≤ lid)
    (h : initLayer lid lp s = .ok s') :
    AsmInv s' ∧
    s'.bottom_id_vecs.length = lid + 1 ∧
    s'.top_id_vecs.length = lid + 1 ∧
    (∀ b, lifeOf s' b ≤ lid + 1) ∧
    s'.blob_names.length = s.blob_names.length + nonInPlaceCount lp := by
  cases hb : appendBottoms lid lp.bottom s with
  | error e =>
    simp only [initLayer, hb] at h
    cases h
  | ok pair1 =>
    obtain ⟨s1, bids⟩ := pair1
    cases ht : appendTops lid lp 0 lp.top.length s1 with
    | error e =>
      simp only [initLayer, hb, ht] at h
      cases h
    | ok pair2 =>
      obtain ⟨s2, tids⟩ := pair2
      simp only [initLayer, hb, ht, Except.ok.injEq] at h
      subst h
      obtain ⟨inv1, hnames1, hbv1, htv1, hmap1, hmono1, hbound1, hbids1,
        hmaps1⟩ := appendBottoms_fold lid lp.bottom s s1 bids inv hb
      obtain ⟨inv2, hbv2, htv2, hlen2, hmono2, hbound2, htids2, hcount2⟩ :=
        appendTops_fold lid lp 0 lp.top.length s1 s2 tids inv1
          (by rw [hmap1]; exact hmaps1) ht
      have hnameslen1 : s1.blob_names.length = s.blob_names.length := by
        rw [hnames1]
      have hlife2 : ∀ b, lifeOf s2 b ≤ lid + 1 := by
        intro b
        have h1 := hbound2 b
        have h2 := hbound1 b
        have h3 := hlife b
        omega
      refine ⟨?_, ?_, ?_, hlife2, ?_⟩
      · constructor
        · exact inv2.life_len
        · exact inv2.idx_lt
        · exact inv2.avail_idx
        · exact inv2.names_idx
        · exact inv2.names_nodup
        · intro ids hids b hbmem
          rcases List.mem_append.mp hids with h1 | h1
          · exact inv2.bots_lt ids h1 b hbmem
          · simp at h1
            subst h1
            obtain ⟨_, hlt⟩ := hbids1 b hbmem
            show b < s2.blob_names.length
            omega
        · intro ids hids b hbmem
          rcases List.mem_append.mp hids with h1 | h1
          · exact inv2.tops_lt ids h1 b hbmem
          · simp at h1
            subst h1
            exact htids2 b hbmem
        · intro j b hbmem
          have hbmem2 : b ∈ (s2.bottom_id_vecs ++ [bids]).getD j [] := hbmem
          show j ≤ lifeOf s2 b
          rcases lt_trichotomy j (s2.bottom_id_vecs.length) with hj | hj | hj
          · rw [getD_append_lt _ _ _ _ hj] at hbmem2
            exact inv2.readers j b hbmem2
          · subst hj
            rw [getD_append_len] at hbmem2
            obtain ⟨h1, _⟩ := hbids1 b hbmem2
            have hl : s2.bottom_id_vecs.length = lid := by rw [hbv2, hbv1, hbl]
            rw [hl]
            exact le_trans h1 (hmono2 b)
          · rw [getD_append_gt _ _ _ _ hj] at hbmem2
            cases hbmem2
      · simp [hbv2, hbv1, hbl]
      · simp [htv2, htv1, htl]
      · rw [hcount2, hnameslen1]
        rfl

/-- The whole assembly loop, relative to `AsmInv` and the per-layer
bookkeeping. -/
theorem initLayersGo_fold (layers : List LayerParameter) (lid : Nat)
    (s s' : AsmState) (inv : AsmInv s)
    (hbl : s.bottom_id_vecs.length = lid)
    (htl : s.top_id_vecs.length = lid)
    (hlife : ∀ b, lifeOf s b ≤ lid)
    (h : initLayersGo lid layers s = .ok s') :
    AsmInv s' ∧
    s'.bottom_id_vecs.length = lid + layers.length ∧
    s'.top_id_vecs.length = lid + layers.length ∧
    (∀ b, lifeOf s' b ≤ lid + layers.length) ∧
    s'.blob_names.length = s.blob_names.length + totalNonInPlace layers := by
  induction layers generalizing lid s with
  | nil =>
    simp only [initLayersGo] at h
    cases h
    exact ⟨inv, by simpa using hbl, by simpa using htl, by simpa using hlife,
      by simp [totalNonInPlace]⟩
  | cons lp rest ih =>
    cases hl : initLayer lid lp s with
    | error e =>
      simp only [initLayersGo, hl] at h
      cases h
    | ok s1 =>
      simp only [initLayersGo, hl] at h
      obtain ⟨inv1, hbl1, htl1, hlife1, hcount1⟩ :=
        initLayer_step lid lp s s1 inv hbl htl hlife hl
      obtain ⟨inv2, hbl2, htl2, hlife2, hcount2⟩ :=
        ih (lid + 1) s1 inv1 hbl1 htl1 hlife1 h
      refine ⟨inv2, by simp [hbl2]; omega, by simp [htl2]; omega, ?_, ?_⟩
      · intro b
        have := hlife2 b
        simp only [List.length_cons]
        omega
      · rw [hcount2, hcount1]
        simp [totalNonInPlace]
        omega

/-- Assembling a layer list from the empty state: the invariant holds, the
per-layer id vectors have one entry per layer, every life time is at most
the layer count, and the blob count is the non-in-place top count. -/
theorem initLayers_ok (layers : List LayerParameter) (s : AsmState)
    (h : initLayers layers = .ok s) :
    AsmInv s ∧
    s.bottom_id_vecs.length = layers.length ∧
    s.top_id_vecs.length = layers.length ∧
    (∀ b, lifeOf s b ≤ layers.length) ∧
    s.blob_names.length = totalNonInPlace layers := by
  obtain ⟨inv, h1, h2, h3, h4⟩ :=
    initLayersGo_fold layers 0 AsmState.empty s asmInv_empty rfl rfl
      (fun b => by simp [lifeOf, AsmState.empty]) h
  exact ⟨inv, by simpa using h1, by simpa using h2, by simpa using h3,
    by simpa [AsmState.empty] using h4⟩

/-- What a successful `NetInit` guarantees about the returned net, in
terms of the assembly that produced it. -/
theorem netInit_ok (p : NetParameter) (net : NetObj)
    (h : NetInit p = .ok net) :
    ∃ filtered s, FilterNet p.state p.layer = .ok filtered ∧
      initLayers filtered = .ok s ∧
      net.blob_names = s.blob_names ∧
      net.bottom_id_vecs = s.bottom_id_vecs ∧
      net.top_id_vecs = s.top_id_vecs ∧
      net.layer_names.length = filtered.length ∧
      net.blob_life_time =
        pinBlobs s.blob_life_time (s.top_id_vecs.getD 0 [])
          filtered.length := by
  have hp : p.state.phase = Phase.TEST := by
    by_contra hc
    unfold NetInit at h
    rw [if_pos hc] at h
    cases h
  simp only [NetInit, NetInitChecked, hp, ne_eq, not_true_eq_false,
    if_false] at h
  cases hf : FilterNet p.state p.layer with
  | error e =>
    simp only [hf] at h
    cases h
  | ok filtered =>
    simp only [hf] at h
    cases hi : initLayers filtered with
    | error e =>
      simp only [hi] at h
      cases h
    | ok s =>
      simp only [hi] at h
      cases filtered with
      | nil => cases h
      | cons first rest =>
        split at h
        · cases h
        · split at h
          · cases h
          · simp only [Except.ok.injEq] at h
            subst h
            exact ⟨first :: rest, s, rfl, hi, rfl, rfl, rfl, by simp, rfl⟩

/-- `pinBlobs` only raises life times (given they are bounded by the pin
value), keeps them bounded by the pin value, and preserves length. -/
theorem pinBlobs_mono (ids : List Nat) (l : List Nat) (v : Nat)
    (hb : ∀ x, l.getD x 0 ≤ v) :
    (∀ b, l.getD b 0 ≤ (pinBlobs l ids v).getD b 0) ∧
    (∀ b, (pinBlobs l ids v).getD b 0 ≤ v) ∧
    (pinBlobs l ids v).length = l.length := by
  induction ids generalizing l with
  | nil => exact ⟨fun b => le_refl _, hb, rfl⟩
  | cons i rest ih =>
    have hstep : ∀ x, l.getD x 0 ≤ (l.set i v).getD x 0 := by
      intro x
      by_cases hx : x = i
      · rw [hx]
        by_cases hlt : i < l.length
        · rw [getD_set_self _ _ _ _ hlt]
          exact hb i
        · rw [List.set_eq_of_length_le (le_of_not_lt hlt)]
      · rw [getD_set_ne _ _ _ _ _ hx]
    have hstepb : ∀ x, (l.set i v).getD x 0 ≤ v := by
      intro x
      by_cases hx : x = i
      · rw [hx]
        by_cases hlt : i < l.length
        · rw [getD_set_self _ _ _ _ hlt]
        · rw [List.set_eq_of_length_le (le_of_not_lt hlt)]
          exact hb i
      · rw [getD_set_ne _ _ _ _ _ hx]
        exact hb x
    obtain ⟨h1, h2, h3⟩ := ih (l.set i v) hstepb
    refine ⟨?_, ?_, ?_⟩
    · intro b
      exact le_trans (hstep b) (h1 b)
    · intro b
      exact h2 b
    · simp only [pinBlobs, List.foldl_cons] at h3 ⊢
      rw [h3]
      simp

/-! Executor lemmas: what the release loop does to the liveness list. -/

theorem releaseBottoms_spec (life : List Nat) (i : Nat) (bids : List Nat)
    (alive : List Bool) :
    (releaseBottoms life i bids alive).length = alive.length ∧
    (∀ b, alive.getD b false = false →
      (releaseBottoms life i bids alive).getD b false = false) ∧
    (∀ b, i < life.getD b 0 →
      (releaseBottoms life i bids alive).getD b false = alive.getD b false) ∧
    (∀ b ∈ bids, life.getD b 0 ≤ i → b < alive.length →
      (releaseBottoms life i bids alive).getD b false = false) := by
  induction bids generalizing alive with
  | nil =>
    exact ⟨rfl, fun b h => h, fun b _ => rfl, by simp⟩
  | cons c rest ih =>
    have hred : releaseBottoms life i (c :: rest) alive =
        releaseBottoms life i rest
          (if life.getD c 0 ≤ i then alive.set c false else alive) := by
      simp only [releaseBottoms, List.foldl_cons]
    set alive1 := if life.getD c 0 ≤ i then alive.set c false else alive
      with halive1
    have hlen1 : alive1.length = alive.length := by
      rw [halive1]
      split <;> simp
    have hfalse1 : ∀ b, alive.getD b false = false →
        alive1.getD b false = false := by
      intro b hbf
      rw [halive1]
      split
      · by_cases hbc : b = c
        · subst hbc
          by_cases hlt : b < alive.length
          · rw [getD_set_self _ _ _ _ hlt]
          · rw [List.set_eq_of_length_le (le_of_not_lt hlt)]
            exact hbf
        · rw [getD_set_ne _ _ _ _ _ hbc]
          exact hbf
      · exact hbf
    obtain ⟨ih1, ih2, ih3, ih4⟩ := ih alive1
    rw [hred]
    refine ⟨ih1.trans hlen1, ?_, ?_, ?_⟩
    · intro b hbf
      exact ih2 b (hfalse1 b hbf)
    · intro b hbl
      rw [ih3 b hbl, halive1]
      split
      · have hbc : b ≠ c := by
          intro he
          subst he
          omega
        rw [getD_set_ne _ _ _ _ _ hbc]
      · rfl
    · intro b hbmem hble hblt
      rcases List.mem_cons.mp hbmem with hbc | hbmem2
      · subst hbc
        refine ih2 b ?_
        rw [halive1, if_pos hble]
        rw [getD_set_self _ _ _ _ hblt]
      · exact ih4 b hbmem2 hble (by rw [hlen1]; exact hblt)

theorem forwardLoop_succ (net : NetObj) (i c : Nat) (alive : List Bool) :
    forwardLoop net i (c + 1) alive =
      ForwardStep net (i + c) (forwardLoop net i c alive) := by
  induction c generalizing i alive with
  | zero => rfl
  | succ c ih =>
    show forwardLoop net (i + 1) (c + 1) (ForwardStep net i alive) =
      ForwardStep net (i + (c + 1))
        (forwardLoop net (i + 1) c (ForwardStep net i alive))
    rw [ih]
    have he : i + 1 + c = i + (c + 1) := by omega
    rw [he]

theorem forwardLoop_length (net : NetObj) (i c : Nat) (alive : List Bool) :
    (forwardLoop net i c alive).length = alive.length := by
  induction c generalizing i alive with
  | zero => rfl
  | succ c ih =>
    show (forwardLoop net (i + 1) c (ForwardStep net i alive)).length =
      alive.length
    rw [ih]
    exact (releaseBottoms_spec _ _ _ _).1

/-- A blob whose recorded life time is at least `j` is still alive before
step `j` of a full pass. -/
theorem alive_until (net : NetObj) (b j : Nat)
    (hb : b < net.blob_names.length)
    (hlife : j ≤ net.blob_life_time.getD b 0) :
    (runTo net j).getD b false = true := by
  induction j with
  | zero =>
    simp only [runTo, forwardLoop, allAlive]
    rw [List.getD_eq_getElem?_getD, List.getElem?_replicate]
    simp [hb]
  | succ j ih =>
    have hrun : runTo net (j + 1) = ForwardStep net j (runTo net j) := by
      unfold runTo
      have := forwardLoop_succ net 0 j (allAlive net)
      simpa using this
    rw [hrun]
    have h3 := (releaseBottoms_spec net.blob_life_time j
      (net.bottom_id_vecs.getD j []) (runTo net j)).2.2.1
    rw [ForwardStep, h3 b (by omega)]
    exact ih (by omega)

/-! Claim theorems. -/

/-- C5: for every context and every rule, `StateMeetsRule` returns true
iff the rule's phase (when specified) equals the context's phase, the
context's level lies within the rule's optional [min, max] bounds, every
required stage is present in the context's stage set, and no forbidden
stage is present. -/
theorem rule_evaluator_semantics (state : NetState) (rule : NetStateRule) :
    StateMeetsRule state rule = true ↔
      ((∀ p, rule.phase = some p → p = state.phase) ∧
       (∀ m, rule.min_level = some m → m ≤ state.level) ∧
       (∀ m, rule.max_level = some m → state.level ≤ m) ∧
       (∀ s ∈ rule.stage, s ∈ state.stage) ∧
       (∀ s ∈ rule.not_stage, s ∉ state.stage)) := by
  unfold StateMeetsRule
  cases hp : rule.phase <;> cases hm : rule.min_level <;>
    cases hM : rule.max_level <;>
    simp [List.any_eq_true, List.elem_iff, bne_iff_ne]

/-- C6: graph filtering fails when any node has both include and exclude
rules; otherwise the result is exactly the order-preserving sublist of
nodes accepted by `layerIncluded`, where a node with no rules is kept, a
node with exclusion rules is dropped iff some exclusion rule is met, and a
node with inclusion rules is kept iff some inclusion rule is met. -/
theorem graph_filter_semantics (state : NetState)
    (layers : List LayerParameter) :
    ((∃ lp ∈ layers, lp.include_rules ≠ [] ∧ lp.exclude_rules ≠ []) →
        ∃ e, FilterNet state layers = .error e) ∧
    ((∀ lp ∈ layers, lp.include_rules = [] ∨ lp.exclude_rules = []) →
        FilterNet state layers =
          .ok (layers.filter (fun lp => layerIncluded state lp))) ∧
    (∀ lp : LayerParameter,
      (lp.include_rules = [] ∧ lp.exclude_rules = [] →
          layerIncluded state lp = true) ∧
      (lp.include_rules = [] →
          (layerIncluded state lp = false ↔
            lp.exclude_rules.any (fun r => StateMeetsRule state r) = true)) ∧
      (lp.include_rules ≠ [] →
          (layerIncluded state lp = true ↔
            lp.include_rules.any (fun r => StateMeetsRule state r) = true))) := by
  refine ⟨?_, ?_, ?_⟩
  · intro ⟨lp, hmem, hboth⟩
    induction layers with
    | nil => cases hmem
    | cons hd tl ih =>
      by_cases hhd : !hd.include_rules.isEmpty && !hd.exclude_rules.isEmpty
      · refine ⟨"Specify either include rules or exclude rules; not both.", ?_⟩
        simp [FilterNet, hhd]
      · rcases List.mem_cons.mp hmem with heq | htl
        · exfalso
          subst heq
          rcases hboth with ⟨h1, h2⟩
          simp [List.isEmpty_iff, h1, h2] at hhd
        · obtain ⟨e, he⟩ := ih htl
          exact ⟨e, by simp [FilterNet, hhd, he]⟩
  · intro hall
    induction layers with
    | nil => simp [FilterNet]
    | cons hd tl ih =>
      have hhd : (!hd.include_rules.isEmpty && !hd.exclude_rules.isEmpty) = false := by
        rcases hall hd (List.mem_cons_self hd tl) with h | h <;> simp [h]
      have := ih (fun lp hm => hall lp (List.mem_cons_of_mem hd hm))
      simp [FilterNet, hhd, this, List.filter_cons]
  · intro lp
    refine ⟨?_, ?_, ?_⟩
    · intro ⟨h1, h2⟩
      simp [layerIncluded, h1, h2]
    · intro h1
      simp [layerIncluded, h1]
    · intro h1
      have : lp.include_rules.isEmpty = false := by
        simpa [List.isEmpty_iff] using h1
      simp [layerIncluded, this]


/-- C7: `AppendBottom` fails fatally exactly when the declared input name
is not currently in the available-names set (with the unknown-input
message), and a non-in-place `AppendTop` fails fatally exactly when the
name already exists in the name-to-id map (with the duplicate-producer
message). -/
theorem assembly_error_conditions (layer_id top_id : Nat)
    (lp : LayerParameter) (blob_name : String) (s : AsmState) :
    (blob_name ∉ s.available_blobs →
      AppendBottom layer_id blob_name s =
        .error ("Unknown bottom blob " ++ blob_name)) ∧
    (blob_name ∈ s.available_blobs →
      ∀ e, AppendBottom layer_id blob_name s ≠ .error e) ∧
    (¬isInPlace lp top_id →
      ((mapLookup s.blob_name_to_idx
          (lp.top.getD top_id "(automatic)")).isSome →
        AppendTop layer_id top_id lp s =
          .error ("Top blob " ++ lp.top.getD top_id "(automatic)" ++
            " produced by multiple sources.")) ∧
      (mapLookup s.blob_name_to_idx (lp.top.getD top_id "(automatic)") =
          none →
        ∀ e, AppendTop layer_id top_id lp s ≠ .error e)) := by
  refine ⟨appendBottom_error layer_id blob_name s, ?_, ?_⟩
  · intro hav e
    simp [AppendBottom, hav]
  · intro hip
    constructor
    · intro hm
      exact appendTop_dup_error layer_id top_id lp s
        (by simpa [isInPlace] using hip) hm
    · intro hm e
      rw [appendTop_fresh_ok layer_id top_id lp s
        (by simpa [isInPlace] using hip) hm]
      simp

/-- C10: consuming a name as an input removes it from the available set
while the name-to-id map keeps it, so a second consumption without an
intervening production fails with the unknown-input error even though the
map still contains the name; and every production (`AppendTop`, in-place
included) re-inserts its name into the available set. -/
theorem consume_removes_availability (layer_id : Nat) (blob_name : String)
    (s s' : AsmState) (bid : Nat)
    (hnodup : s.available_blobs.Nodup)
    (hm : (mapLookup s.blob_name_to_idx blob_name).isSome)
    (h : AppendBottom layer_id blob_name s = .ok (s', bid)) :
    (blob_name ∉ s'.available_blobs ∧
     s'.blob_name_to_idx = s.blob_name_to_idx ∧
     (mapLookup s'.blob_name_to_idx blob_name).isSome ∧
     ∀ lid2, AppendBottom lid2 blob_name s' =
       .error ("Unknown bottom blob " ++ blob_name)) ∧
    (∀ lid tid (lp : LayerParameter) (t t' : AsmState) (tb : Nat),
      AppendTop lid tid lp t = .ok (t', tb) →
      lp.top.getD tid "(automatic)" ∈ t'.available_blobs) := by
  constructor
  · have hav : blob_name ∈ s.available_blobs := by
      by_contra hc
      rw [appendBottom_error layer_id blob_name s hc] at h
      cases h
    obtain ⟨v, hv⟩ := Option.isSome_iff_exists.mp hm
    rw [appendBottom_ok layer_id blob_name s v hav hv] at h
    simp only [Except.ok.injEq, Prod.mk.injEq] at h
    obtain ⟨hs, hid⟩ := h
    subst hs
    have hnot : blob_name ∉ s.available_blobs.erase blob_name := by
      intro hc
      rcases (List.Nodup.mem_erase_iff hnodup).mp hc with ⟨hne, _⟩
      exact hne rfl
    exact ⟨hnot, rfl, hm, fun lid2 => appendBottom_error lid2 blob_name _
      hnot⟩
  · intro lid tid lp t t' tb hat
    by_cases hip : tid < lp.bottom.length ∧
        lp.top.getD tid "(automatic)" = lp.bottom.getD tid ""
    · unfold AppendTop at hat
      rw [if_pos hip] at hat
      cases hmg : mapGet t.blob_name_to_idx (lp.top.getD tid "(automatic)")
        with
      | mk m2 bid2 =>
        rw [hmg] at hat
        simp only [Except.ok.injEq, Prod.mk.injEq] at hat
        obtain ⟨hs, _⟩ := hat
        rw [← hs]
        exact setInsert_mem_self _ _
    · cases hm2 : mapLookup t.blob_name_to_idx
        (lp.top.getD tid "(automatic)") with
      | some v =>
        rw [appendTop_dup_error lid tid lp t hip (by rw [hm2]; rfl)] at hat
        cases hat
      | none =>
        rw [appendTop_fresh_ok lid tid lp t hip hm2] at hat
        simp only [Except.ok.injEq, Prod.mk.injEq] at hat
        obtain ⟨hs, _⟩ := hat
        rw [← hs]
        exact setInsert_mem_self _ _

/-- C9: the file constructor forces the phase to TEST before `Init`
(assembly proceeds on the TEST-phased description), `Init` aborts on any
description whose phase is not TEST, and a successful `Init` implies the
phase was TEST — so rules are only ever evaluated against a TEST-phase
state in this runtime. -/
theorem phase_forced_test (param : NetParameter) :
    NetConstruct param =
      NetInitChecked
        { param with state := { param.state with phase := Phase.TEST } } ∧
    ({ param with state := { param.state with phase := Phase.TEST } }
      : NetParameter).state.phase = Phase.TEST ∧
    (param.state.phase ≠ Phase.TEST →
      NetInit param =
        .error "CHECK_EQ failed: in_param.state().phase() == TEST") ∧
    (∀ net : NetObj, NetInit param = .ok net →
      param.state.phase = Phase.TEST) := by
  refine ⟨?_, rfl, ?_, ?_⟩
  · unfold NetConstruct NetInit
    simp
  · intro hp
    unfold NetInit
    rw [if_pos hp]
  · intro net hnet
    by_contra hc
    unfold NetInit at hnet
    rw [if_pos hc] at hnet
    cases hnet

/-- C4: an in-place top (k-th output name equal to the k-th input name)
allocates no new buffer — the blob list and map are unchanged, the mapped
id is reused and its life extended to at least one past this node's index
— and after a whole assembly the buffer count equals exactly the number
of distinct names produced non-in-place (blob names are pairwise distinct
and count the non-in-place top positions). -/
theorem inplace_reuses_buffer (layer_id top_id : Nat)
    (lp : LayerParameter) (s : AsmState) (v : Nat)
    (hip : isInPlace lp top_id)
    (hm : mapLookup s.blob_name_to_idx (lp.top.getD top_id "(automatic)") =
      some v)
    (hv : v < s.blob_life_time.length) :
    (∃ s', AppendTop layer_id top_id lp s = .ok (s', v) ∧
      s'.blob_names = s.blob_names ∧
      s'.blob_name_to_idx = s.blob_name_to_idx ∧
      layer_id + 1 ≤ lifeOf s' v) ∧
    (∀ (layers : List LayerParameter) (t : AsmState),
      initLayers layers = .ok t →
      t.blob_names.length = totalNonInPlace layers ∧
      t.blob_names.Nodup) := by
  obtain ⟨hip1, hip2⟩ := hip
  constructor
  · refine ⟨_, appendTop_inplace_ok layer_id top_id lp s v ⟨hip1, hip2⟩ hm,
      rfl, rfl, ?_⟩
    simp only [lifeOf]
    rw [getD_set_self _ _ _ _ hv]
    exact le_max_right _ _
  · intro layers t ht
    obtain ⟨inv, _, _, _, hcount⟩ := initLayers_ok layers t ht
    exact ⟨hcount, inv.names_nodup⟩

/-- C3: after a successful assembly, a full forward pass is the
`runTo`-fold over all layers; immediately after each node `i` runs, every
input blob of node `i` whose recorded last-use index is at most `i` has
its storage released; and no blob is released before every node that
reads it has run — each node's input blobs are still allocated when that
node executes. -/
theorem forward_release_correct (p : NetParameter) (net : NetObj)
    (h : NetInit p = .ok net) :
    (0 < net.layer_names.length →
      ForwardFromTo net 0 (net.layer_names.length - 1) (allAlive net) =
        .ok (runTo net net.layer_names.length)) ∧
    (∀ i, i < net.layer_names.length →
      ∀ b ∈ net.bottom_id_vecs.getD i [],
        net.blob_life_time.getD b 0 ≤ i →
          (runTo net (i + 1)).getD b false = false) ∧
    (∀ j, j < net.layer_names.length →
      ∀ b ∈ net.bottom_id_vecs.getD j [],
        (runTo net j).getD b false = true) := by
  obtain ⟨filtered, s, hf, hi, hnames, hbv, htv, hlen, hlife⟩ :=
    netInit_ok p net h
  obtain ⟨inv, hbl, htl, hbound, hcount⟩ := initLayers_ok filtered s hi
  obtain ⟨hpin1, hpin2, hpin3⟩ :=
    pinBlobs_mono (s.top_id_vecs.getD 0 []) s.blob_life_time
      filtered.length (fun x => hbound x)
  have hreaders : ∀ j, ∀ b ∈ net.bottom_id_vecs.getD j [],
      j ≤ net.blob_life_time.getD b 0 := by
    intro j b hb
    rw [hbv] at hb
    have h1 := inv.readers j b hb
    rw [hlife]
    exact le_trans h1 (hpin1 b)
  have hblt : ∀ j, ∀ b ∈ net.bottom_id_vecs.getD j [],
      b < net.blob_names.length := by
    intro j b hb
    rw [hbv] at hb
    rw [hnames]
    by_cases hj : j < s.bottom_id_vecs.length
    · exact inv.bots_lt _ (getD_mem _ _ _ hj) b hb
    · rw [getD_oob _ _ _ (le_of_not_lt hj)] at hb
      cases hb
  refine ⟨?_, ?_, ?_⟩
  · intro hL
    unfold ForwardFromTo
    rw [if_pos (by omega)]
    have he : net.layer_names.length - 1 + 1 - 0 =
        net.layer_names.length := by omega
    rw [he]
    rfl
  · intro i hi2 b hb hl
    have hrun : runTo net (i + 1) = ForwardStep net i (runTo net i) := by
      unfold runTo
      simpa using forwardLoop_succ net 0 i (allAlive net)
    rw [hrun]
    refine (releaseBottoms_spec net.blob_life_time i
      (net.bottom_id_vecs.getD i []) (runTo net i)).2.2.2 b hb hl ?_
    have hlen2 : (runTo net i).length = net.blob_names.length := by
      unfold runTo
      rw [forwardLoop_length]
      simp [allAlive]
    rw [hlen2]
    exact hblt i b hb
  · intro j hj b hb
    exact alive_until net b j (hblt j b hb) (hreaders j b hb)

/-! Weight-loader lemmas. -/

theorem set_getD_self {α : Type} (l : List α) (i : Nat) (d : α)
    (h : i < l.length) : l.set i (l.getD i d) = l := by
  apply List.ext_getElem
  · simp
  · intro n h1 h2
    by_cases hn : n = i
    · subst hn
      rw [List.getElem_set_self, List.getD_eq_getElem?_getD,
        List.getElem?_eq_getElem h]
      rfl
    · rw [List.getElem_set_ne (Ne.symm hn)]

theorem findIdx?_spec {α : Type} (p : α → Bool) (l : List α) (st i : Nat)
    (d : α) (h : List.findIdx? p l st = some i) :
    st ≤ i ∧ i - st < l.length ∧ p (l.getD (i - st) d) = true := by
  induction l generalizing st with
  | nil => simp [List.findIdx?] at h
  | cons a t ih =>
    rw [List.findIdx?_cons] at h
    by_cases hp : p a = true
    · rw [if_pos hp] at h
      obtain hi : st = i := Option.some.inj h
      subst hi
      simp [hp]
    · rw [if_neg hp] at h
      obtain ⟨h1, h2, h3⟩ := ih (st + 1) h
      refine ⟨by omega, by simp; omega, ?_⟩
      have he : i - st = (i - (st + 1)) + 1 := by omega
      rw [he]
      simpa using h3

/-- The name and blob count of each target layer, the data
`CopyTrainedLayersFrom`'s control flow depends on. -/
def layerKeys (l : List NetLayer) : List (String × Nat) :=
  l.map (fun t => (t.name, t.blobs.length))

theorem copyLayerBlobs_length (lname : String) (ts : List Blob)
    (ps : List BlobProto) :
    (copyLayerBlobs lname ts ps).1.length = ts.length := by
  induction ts generalizing ps with
  | nil => cases ps <;> rfl
  | cons t rest ih =>
    cases ps with
    | nil => rfl
    | cons p prest =>
      by_cases hs : ShapeEquals t p
      · simp [copyLayerBlobs, hs, ih]
      · simp [copyLayerBlobs, hs]

/-- A load step never changes any target layer's name or blob count, so
the by-name lookup and the count checks behave identically before and
after any prefix of the load. -/
theorem copyTrained_preserves_keys (srcs : List LayerParameter) :
    ∀ tgts : List NetLayer,
      layerKeys (CopyTrainedLayersFrom tgts srcs).1 = layerKeys tgts := by
  induction srcs with
  | nil => intro tgts; rfl
  | cons src rest ih =>
    intro tgts
    have hsetkeys : ∀ (i : Nat) (nb : List Blob), i < tgts.length →
        nb.length = (tgts.getD i ⟨"", []⟩).blobs.length →
        layerKeys (tgts.set i ⟨(tgts.getD i ⟨"", []⟩).name, nb⟩) =
          layerKeys tgts := by
      intro i nb hi hlen
      unfold layerKeys
      rw [List.map_set]
      have hgd : (List.map (fun t : NetLayer =>
          (t.name, t.blobs.length)) tgts).getD i
            ((fun t : NetLayer => (t.name, t.blobs.length)) ⟨"", []⟩) =
          ((tgts.getD i ⟨"", []⟩).name,
           (tgts.getD i ⟨"", []⟩).blobs.length) :=
        List.getD_map tgts ⟨"", []⟩ (fun t => (t.name, t.blobs.length))
      rw [hlen, ← hgd, set_getD_self]
      rw [List.length_map]
      exact hi
    cases hidx : tgts.findIdx? (fun l => l.name == src.name) with
    | none =>
      simp only [CopyTrainedLayersFrom, hidx]
      exact ih tgts
    | some i =>
      obtain ⟨-, hlt, -⟩ :=
        findIdx?_spec (fun l => l.name == src.name) tgts 0 i ⟨"", []⟩ hidx
      simp only [Nat.sub_zero] at hlt
      by_cases hcnt :
          (tgts.getD i ⟨"", []⟩).blobs.length ≠ src.blobs.length
      · simp only [CopyTrainedLayersFrom, hidx, if_pos hcnt]
      · cases hr : copyLayerBlobs src.name
            (tgts.getD i ⟨"", []⟩).blobs src.blobs with
        | mk nb e =>
          have hnb : nb.length = (tgts.getD i ⟨"", []⟩).blobs.length := by
            have := copyLayerBlobs_length src.name
              (tgts.getD i ⟨"", []⟩).blobs src.blobs
            rw [hr] at this
            exact this
          cases e with
          | some msg =>
            simp only [CopyTrainedLayersFrom, hidx, if_neg hcnt, hr]
            exact hsetkeys i nb hlt hnb
          | none =>
            simp only [CopyTrainedLayersFrom, hidx, if_neg hcnt, hr]
            exact (ih _).trans (hsetkeys i nb hlt hnb)

theorem layerKeys_names (l1 l2 : List NetLayer)
    (h : layerKeys l1 = layerKeys l2) (nm : String) :
    ∀ st, l1.findIdx? (fun t => t.name == nm) st =
      l2.findIdx? (fun t => t.name == nm) st := by
  induction l1 generalizing l2 with
  | nil =>
    cases l2 with
    | nil => intro st; rfl
    | cons b t2 => simp [layerKeys] at h
  | cons a t1 ih =>
    cases l2 with
    | nil => simp [layerKeys] at h
    | cons b t2 =>
      simp only [layerKeys, List.map_cons, List.cons.injEq,
        Prod.mk.injEq] at h
      obtain ⟨⟨hn, hc⟩, ht⟩ := h
      intro st
      rw [List.findIdx?_cons, List.findIdx?_cons, hn]
      by_cases hb : b.name == nm
      · rw [if_pos hb, if_pos hb]
      · rw [if_neg hb, if_neg hb]
        exact ih t2 ht (st + 1)

theorem layerKeys_getD : ∀ l1 l2 : List NetLayer,
    layerKeys l1 = layerKeys l2 → ∀ i : Nat,
    (l1.getD i ⟨"", []⟩).name = (l2.getD i ⟨"", []⟩).name ∧
    (l1.getD i ⟨"", []⟩).blobs.length =
      (l2.getD i ⟨"", []⟩).blobs.length := by
  intro l1
  induction l1 with
  | nil =>
    intro l2 h i
    cases l2 with
    | nil => exact ⟨rfl, rfl⟩
    | cons b t2 => simp [layerKeys] at h
  | cons a t ih =>
    intro l2 h i
    cases l2 with
    | nil => simp [layerKeys] at h
    | cons b t2 =>
      simp only [layerKeys, List.map_cons, List.cons.injEq,
        Prod.mk.injEq] at h
      obtain ⟨⟨hn, hc⟩, ht⟩ := h
      cases i with
      | zero => exact ⟨hn, hc⟩
      | succ n => exact ih t2 (by simpa [layerKeys] using ht) n

/-- Replacing one target layer's blobs with an equally long list keeps
every layer's key (name, blob count). -/
theorem layerKeys_set (tgts : List NetLayer) (i : Nat) (nb : List Blob)
    (hi : i < tgts.length)
    (hlen : nb.length = (tgts.getD i ⟨"", []⟩).blobs.length) :
    layerKeys (tgts.set i ⟨(tgts.getD i ⟨"", []⟩).name, nb⟩) =
      layerKeys tgts := by
  unfold layerKeys
  rw [List.map_set]
  have hgd : (List.map (fun t : NetLayer =>
      (t.name, t.blobs.length)) tgts).getD i
        ((fun t : NetLayer => (t.name, t.blobs.length)) ⟨"", []⟩) =
      ((tgts.getD i ⟨"", []⟩).name,
       (tgts.getD i ⟨"", []⟩).blobs.length) :=
    List.getD_map tgts ⟨"", []⟩ (fun t => (t.name, t.blobs.length))
  rw [hlen, ← hgd, set_getD_self]
  rw [List.length_map]
  exact hi

/-- If some foreign layer matches a target (by the loader's first-match
lookup) with a differing blob count, the load aborts with a fatal
message. -/
theorem copyTrained_fails_of_count_mismatch (srcs : List LayerParameter) :
    ∀ tgts : List NetLayer,
      (∃ src ∈ srcs, ∃ i,
        tgts.findIdx? (fun l => l.name == src.name) = some i ∧
        (tgts.getD i ⟨"", []⟩).blobs.length ≠ src.blobs.length) →
      (CopyTrainedLayersFrom tgts srcs).2.isSome := by
  induction srcs with
  | nil =>
    intro tgts h
    obtain ⟨src, hmem, -⟩ := h
    cases hmem
  | cons src rest ih =>
    intro tgts h
    cases hidx : tgts.findIdx? (fun l => l.name == src.name) with
    | none =>
      simp only [CopyTrainedLayersFrom, hidx]
      obtain ⟨src0, hmem, i0, hi0, hc0⟩ := h
      rcases List.mem_cons.mp hmem with he | hmem2
      · subst he
        rw [hidx] at hi0
        cases hi0
      · exact ih tgts ⟨src0, hmem2, i0, hi0, hc0⟩
    | some i =>
      obtain ⟨-, hlt, -⟩ :=
        findIdx?_spec (fun l => l.name == src.name) tgts 0 i ⟨"", []⟩ hidx
      simp only [Nat.sub_zero] at hlt
      by_cases hcnt :
          (tgts.getD i ⟨"", []⟩).blobs.length ≠ src.blobs.length
      · simp only [CopyTrainedLayersFrom, hidx, if_pos hcnt]
        rfl
      · cases hr : copyLayerBlobs src.name
            (tgts.getD i ⟨"", []⟩).blobs src.blobs with
        | mk nb e =>
          have hnb : nb.length = (tgts.getD i ⟨"", []⟩).blobs.length := by
            have := copyLayerBlobs_length src.name
              (tgts.getD i ⟨"", []⟩).blobs src.blobs
            rw [hr] at this
            exact this
          cases e with
          | some msg =>
            simp only [CopyTrainedLayersFrom, hidx, if_neg hcnt, hr]
            rfl
          | none =>
            simp only [CopyTrainedLayersFrom, hidx, if_neg hcnt, hr]
            obtain ⟨src0, hmem, i0, hi0, hc0⟩ := h
            have hkeys := layerKeys_set tgts i nb hlt hnb
            rcases List.mem_cons.mp hmem with he | hmem2
            · subst he
              rw [hidx] at hi0
              obtain rfl := Option.some.inj hi0
              exact absurd hc0 (by omega)
            · refine ih _ ⟨src0, hmem2, i0, ?_, ?_⟩
              · rw [layerKeys_names _ tgts hkeys src0.name 0]
                exact hi0
              · rw [(layerKeys_getD _ tgts hkeys i0).2]
                exact hc0

/-- Target layers never named by any foreign layer are untouched by the
load, mutated or aborted alike. -/
theorem copyTrained_frame (srcs : List LayerParameter) :
    ∀ (tgts : List NetLayer) (j : Nat),
      (∀ src ∈ srcs, src.name ≠ (tgts.getD j ⟨"", []⟩).name) →
      (CopyTrainedLayersFrom tgts srcs).1.getD j ⟨"", []⟩ =
        tgts.getD j ⟨"", []⟩ := by
  induction srcs with
  | nil => intro tgts j h; rfl
  | cons src rest ih =>
    intro tgts j h
    cases hidx : tgts.findIdx? (fun l => l.name == src.name) with
    | none =>
      simp only [CopyTrainedLayersFrom, hidx]
      exact ih tgts j (fun s0 hs => h s0 (List.mem_cons_of_mem _ hs))
    | some i =>
      obtain ⟨-, hlt, hp⟩ :=
        findIdx?_spec (fun l => l.name == src.name) tgts 0 i ⟨"", []⟩ hidx
      simp only [Nat.sub_zero] at hlt hp
      have hname : (tgts.getD i ⟨"", []⟩).name = src.name := by
        simpa using hp
      have hij : j ≠ i := by
        intro he
        subst he
        exact h src (List.mem_cons_self _ _) (by rw [hname])
      by_cases hcnt :
          (tgts.getD i ⟨"", []⟩).blobs.length ≠ src.blobs.length
      · simp only [CopyTrainedLayersFrom, hidx, if_pos hcnt]
      · cases hr : copyLayerBlobs src.name
            (tgts.getD i ⟨"", []⟩).blobs src.blobs with
        | mk nb e =>
          have hnb : nb.length = (tgts.getD i ⟨"", []⟩).blobs.length := by
            have := copyLayerBlobs_length src.name
              (tgts.getD i ⟨"", []⟩).blobs src.blobs
            rw [hr] at this
            exact this
          have hsetj : (tgts.set i
              ⟨(tgts.getD i ⟨"", []⟩).name, nb⟩).getD j ⟨"", []⟩ =
              tgts.getD j ⟨"", []⟩ :=
            getD_set_ne _ _ _ _ _ hij
          cases e with
          | some msg =>
            simp only [CopyTrainedLayersFrom, hidx, if_neg hcnt, hr]
            exact hsetj
          | none =>
            simp only [CopyTrainedLayersFrom, hidx, if_neg hcnt, hr]
            have hmm : ∀ s0 ∈ rest, s0.name ≠
                ((tgts.set i ⟨(tgts.getD i ⟨"", []⟩).name, nb⟩).getD j
                  ⟨"", []⟩).name := by
              intro s0 hs
              rw [hsetj]
              exact h s0 (List.mem_cons_of_mem _ hs)
            rw [ih _ j hmm]
            exact hsetj

/-! Concrete descriptions and states used by the example theorems. -/

/-- One-layer description: an Input layer producing blob "data". -/
def exampleParam : NetParameter :=
  ⟨"example", ⟨Phase.TEST, 0, []⟩,
    [⟨"input", "Input", [], ["data"], [], [], []⟩]⟩

/-- The net `NetInit` assembles from `exampleParam`. -/
def exampleNet : NetObj :=
  ⟨["input"], ["Input"], ["data"], [1], [[]], [[0]], [("data", 0)],
    [("input", 0)]⟩

/-- Three-layer chain: input produces "data", fc1 maps it to "mid", fc2
maps "mid" to "out"; "mid" is last used by layer 2 and gets released
there. -/
def c3param : NetParameter :=
  ⟨"c3", ⟨Phase.TEST, 0, []⟩,
    [⟨"input", "Input", [], ["data"], [], [], []⟩,
     ⟨"fc1", "InnerProduct", ["data"], ["mid"], [], [], []⟩,
     ⟨"fc2", "InnerProduct", ["mid"], ["out"], [], [], []⟩]⟩

/-- The net `NetInit` assembles from `c3param`. -/
def c3net : NetObj :=
  ⟨["input", "fc1", "fc2"], ["Input", "InnerProduct", "InnerProduct"],
    ["data", "mid", "out"], [3, 2, 3], [[], [0], [1]], [[0], [1], [2]],
    [("data", 0), ("mid", 1), ("out", 2)],
    [("input", 0), ("fc1", 1), ("fc2", 2)]⟩

/-- Assembly state with one blob "data" available (what assembling the
one-layer `exampleParam` produces). -/
def c4s : AsmState :=
  ⟨["data"], [1], [("data", 0)], ["data"], [[]], [[0]]⟩

/-- A layer computing "data" in place. -/
def c4lp : LayerParameter :=
  ⟨"relu", "ReLU", ["data"], ["data"], [], [], []⟩

/-- The state after `AppendBottom 1 "data" c4s`: "data" consumed away. -/
def c10after : AsmState :=
  ⟨["data"], [1], [("data", 0)], [], [[]], [[0]]⟩

/-- A layer that re-produces the already-registered name "data"
non-in-place (it has no bottoms). -/
def c7dup : LayerParameter :=
  ⟨"dup", "Split", [], ["data"], [], [], []⟩

/-- A layer with both include and exclude rules (illegal). -/
def c6both : LayerParameter :=
  ⟨"both", "ReLU", [], [], [⟨some Phase.TEST, none, none, [], []⟩],
    [⟨some Phase.TRAIN, none, none, [], []⟩], []⟩

/-- A rule-free layer. -/
def c6plain : LayerParameter :=
  ⟨"plain", "ReLU", [], [], [], [], []⟩

/-- A description whose phase is TRAIN. -/
def trainParam : NetParameter :=
  ⟨"train", ⟨Phase.TRAIN, 0, []⟩, []⟩

def wlTargetA : NetLayer := ⟨"A", [⟨[2], [0, 0]⟩]⟩
def wlTargetB : NetLayer := ⟨"B", [⟨[1], [0]⟩]⟩
def wlSourceA : LayerParameter := ⟨"A", "", [], [], [], [], [⟨[2], [5, 6]⟩]⟩
def wlSourceB : LayerParameter := ⟨"B", "", [], [], [], [], []⟩
def wlSourceZ : LayerParameter := ⟨"Z", "", [], [], [], [], []⟩

/-- C1 counterexample: foreign node B matches target B with blob count 0
against 1, so the load aborts fatally as the claim says — but target
node A, a node other than the mismatching one, has already been
overwritten with the foreign data by the time of the abort, refuting the
claim's no-other-mutation part. -/
theorem weight_mismatch_mutation_counterexample :
    (CopyTrainedLayersFrom [wlTargetA, wlTargetB] [wlSourceA, wlSourceB]).2 =
      some "Incompatible number of blobs for layer B" ∧
    (CopyTrainedLayersFrom [wlTargetA, wlTargetB]
        [wlSourceA, wlSourceB]).1.getD 0 ⟨"", []⟩ =
      ⟨"A", [⟨[2], [5, 6]⟩]⟩ ∧
    wlTargetA.blobs ≠ [⟨[2], [5, 6]⟩] := by
  refine ⟨rfl, rfl, by decide⟩

/-- C1 amended: when a foreign node matches a target (by the loader's
first-match name lookup) with a different learnable-buffer count, the
load fails fatally; the step detecting the mismatch itself mutates
nothing — in particular the mismatching node's parameters are untouched
at that point — and target nodes never named by any foreign node are
untouched by the whole load.  (Nodes matched by earlier foreign entries
may already have been overwritten — see the counterexample.) -/
theorem weight_count_mismatch_aborts (tgts : List NetLayer)
    (srcs : List LayerParameter) :
    ((∃ src ∈ srcs, ∃ i,
        tgts.findIdx? (fun l => l.name == src.name) = some i ∧
        (tgts.getD i ⟨"", []⟩).blobs.length ≠ src.blobs.length) →
      (CopyTrainedLayersFrom tgts srcs).2.isSome) ∧
    (∀ (src : LayerParameter) (rest : List LayerParameter) (i : Nat),
      tgts.findIdx? (fun l => l.name == src.name) = some i →
      (tgts.getD i ⟨"", []⟩).blobs.length ≠ src.blobs.length →
      CopyTrainedLayersFrom tgts (src :: rest) =
        (tgts, some ("Incompatible number of blobs for layer " ++
          src.name))) ∧
    (∀ j, (∀ src ∈ srcs, src.name ≠ (tgts.getD j ⟨"", []⟩).name) →
      (CopyTrainedLayersFrom tgts srcs).1.getD j ⟨"", []⟩ =
        tgts.getD j ⟨"", []⟩) := by
  refine ⟨copyTrained_fails_of_count_mismatch srcs tgts, ?_,
    fun j hj => copyTrained_frame srcs tgts j hj⟩
  intro src rest i hidx hcnt
  simp only [CopyTrainedLayersFrom, hidx, if_pos hcnt]

/-- Witness for the amended C1 at the counterexample inputs. -/
theorem weight_count_mismatch_aborts_witness :
    (CopyTrainedLayersFrom [wlTargetA, wlTargetB]
      [wlSourceA, wlSourceB]).2.isSome :=
  (weight_count_mismatch_aborts [wlTargetA, wlTargetB]
    [wlSourceA, wlSourceB]).1 ⟨wlSourceB, by decide, 1, by rfl, by decide⟩

/-- C8: an unmatched foreign node is silently skipped (the load result is
that of the remaining foreign nodes, targets untouched); a matched blob
pair with differing shapes aborts the copy with the fatal message naming
the node and describing both shapes, that blob and all later ones left
untouched; a matched pair with equal shapes gets the foreign raw data
verbatim with the target shape unchanged; and a shape mismatch inside a
matched layer aborts the whole load with that message, with only the
earlier blobs of that layer overwritten. -/
theorem weight_copy_semantics :
    (∀ (tgts : List NetLayer) (src : LayerParameter)
        (rest : List LayerParameter),
      tgts.findIdx? (fun l => l.name == src.name) = none →
      CopyTrainedLayersFrom tgts (src :: rest) =
        CopyTrainedLayersFrom tgts rest) ∧
    (∀ (lname : String) (t : Blob) (pb : BlobProto) (ts : List Blob)
        (ps : List BlobProto),
      t.shape ≠ pb.shape →
      copyLayerBlobs lname (t :: ts) (pb :: ps) =
        (t :: ts, some (mismatchMsg lname pb.shape t.shape))) ∧
    (∀ (lname : String) (t : Blob) (pb : BlobProto) (ts : List Blob)
        (ps : List BlobProto),
      t.shape = pb.shape →
      copyLayerBlobs lname (t :: ts) (pb :: ps) =
        (⟨t.shape, pb.data⟩ :: (copyLayerBlobs lname ts ps).1,
          (copyLayerBlobs lname ts ps).2)) ∧
    (∀ (tgts : List NetLayer) (src : LayerParameter)
        (rest : List LayerParameter) (i : Nat) (nb : List Blob)
        (msg : String),
      tgts.findIdx? (fun l => l.name == src.name) = some i →
      ¬((tgts.getD i ⟨"", []⟩).blobs.length ≠ src.blobs.length) →
      copyLayerBlobs src.name (tgts.getD i ⟨"", []⟩).blobs src.blobs =
        (nb, some msg) →
      CopyTrainedLayersFrom tgts (src :: rest) =
        (tgts.set i ⟨(tgts.getD i ⟨"", []⟩).name, nb⟩, some msg)) := by
  refine ⟨?_, ?_, ?_, ?_⟩
  · intro tgts src rest hidx
    simp only [CopyTrainedLayersFrom, hidx]
  · intro lname t pb ts ps hs
    have hse : ShapeEquals t pb = false := by
      simp only [ShapeEquals, beq_eq_false_iff_ne, ne_eq]
      exact hs
    simp [copyLayerBlobs, hse]
  · intro lname t pb ts ps hs
    have hse : ShapeEquals t pb = true := by
      simp [ShapeEquals, hs]
    simp [copyLayerBlobs, hse, FromProtoNoReshape]
  · intro tgts src rest i nb msg hidx hcnt hr
    simp only [CopyTrainedLayersFrom, hidx, if_neg hcnt, hr]

/-- Witness for C8 at concrete blobs and layers. -/
theorem weight_copy_semantics_witness :
    CopyTrainedLayersFrom [wlTargetA] [wlSourceZ] =
      CopyTrainedLayersFrom [wlTargetA] [] ∧
    copyLayerBlobs "A" [⟨[2], [0, 0]⟩] [⟨[3], [1, 2, 3]⟩] =
      ([⟨[2], [0, 0]⟩], some (mismatchMsg "A" [3] [2])) ∧
    copyLayerBlobs "A" [⟨[2], [0, 0]⟩] [⟨[2], [7, 8]⟩] =
      (⟨[2], [7, 8]⟩ :: (copyLayerBlobs "A" [] []).1,
        (copyLayerBlobs "A" [] []).2) :=
  ⟨weight_copy_semantics.1 [wlTargetA] wlSourceZ [] rfl,
   weight_copy_semantics.2.1 "A" ⟨[2], [0, 0]⟩ ⟨[3], [1, 2, 3]⟩ [] []
     (by decide),
   weight_copy_semantics.2.2.1 "A" ⟨[2], [0, 0]⟩ ⟨[2], [7, 8]⟩ [] [] rfl⟩

/-- C2 counterexample: on the assembled one-layer net, looking up the
absent name "nonexistent" by name makes `has_blob` correctly return
false, but `blob_by_name` (likewise `layer_by_name`) aborts fatally (the
failed `CHECK`) instead of reporting the non-fatal `lookupMiss`
indication the claim describes. -/
theorem lookup_fatal_counterexample :
    NetInit exampleParam = .ok exampleNet ∧
    has_blob exampleNet "nonexistent" = false ∧
    blob_by_name exampleNet "nonexistent" =
      .fatalAbort "Unknown blob name nonexistent" ∧
    blob_by_name exampleNet "nonexistent" ≠ LookupOutcome.lookupMiss ∧
    layer_by_name exampleNet "nonexistent" ≠ LookupOutcome.lookupMiss := by
  refine ⟨rfl, rfl, rfl, by decide, by decide⟩

/-- C2 amended: for every name absent from the respective index,
`has_blob` / `has_layer` return false (the checkable, non-fatal
indication), while `blob_by_name` / `layer_by_name` abort fatally with a
message naming the unknown name and never return a usable reference —
callers must check `has_*` first. -/
theorem lookup_not_found_behavior (net : NetObj) (nm : String) :
    (mapLookup net.blob_names_index nm = none →
      has_blob net nm = false ∧
      blob_by_name net nm = .fatalAbort ("Unknown blob name " ++ nm) ∧
      ∀ v, blob_by_name net nm ≠ .found v) ∧
    (mapLookup net.layer_names_index nm = none →
      has_layer net nm = false ∧
      layer_by_name net nm = .fatalAbort ("Unknown layer name " ++ nm) ∧
      ∀ v, layer_by_name net nm ≠ .found v) := by
  constructor <;> intro hm <;>
    simp [has_blob, blob_by_name, has_layer, layer_by_name, hm]

/-- Witness for the amended C2 on the assembled one-layer net. -/
theorem lookup_not_found_behavior_witness :
    has_blob exampleNet "nonexistent" = false ∧
    blob_by_name exampleNet "nonexistent" =
      .fatalAbort ("Unknown blob name " ++ "nonexistent") ∧
    has_layer exampleNet "nonexistent" = false ∧
    layer_by_name exampleNet "nonexistent" =
      .fatalAbort ("Unknown layer name " ++ "nonexistent") :=
  ⟨((lookup_not_found_behavior exampleNet "nonexistent").1 (by rfl)).1,
   ((lookup_not_found_behavior exampleNet "nonexistent").1 (by rfl)).2.1,
   ((lookup_not_found_behavior exampleNet "nonexistent").2 (by rfl)).1,
   ((lookup_not_found_behavior exampleNet "nonexistent").2 (by rfl)).2.1⟩

/-- Witness for C3 on the three-layer chain: blob 1 ("mid") is still
allocated right before layer 2 consumes it and released right after. -/
theorem forward_release_correct_witness :
    (runTo c3net 3).getD 1 false = false ∧
    (runTo c3net 2).getD 1 false = true := by
  have h := forward_release_correct c3param c3net (by rfl)
  exact ⟨h.2.1 2 (by decide) 1 (by decide) (by decide),
         h.2.2 2 (by decide) 1 (by decide)⟩

/-- Witness for C4: the in-place ReLU reuses blob id 0 allocating
nothing, and the assembled one-layer net has exactly its one
non-in-place produced name as blob count. -/
theorem inplace_reuses_buffer_witness :
    (∃ s', AppendTop 1 0 c4lp c4s = Except.ok (s', 0) ∧
      s'.blob_names = c4s.blob_names ∧
      s'.blob_name_to_idx = c4s.blob_name_to_idx ∧
      1 + 1 ≤ lifeOf s' 0) ∧
    (c4s.blob_names.length =
      totalNonInPlace [⟨"input", "Input", [], ["data"], [], [], []⟩] ∧
     c4s.blob_names.Nodup) :=
  ⟨(inplace_reuses_buffer 1 0 c4lp c4s 0 (by decide) rfl (by decide)).1,
   (inplace_reuses_buffer 1 0 c4lp c4s 0 (by decide) rfl (by decide)).2
     [⟨"input", "Input", [], ["data"], [], [], []⟩] c4s (by rfl)⟩

/-- Witness for C6: a layer with both rule lists fails filtering, a
rule-free layer passes through. -/
theorem graph_filter_semantics_witness :
    (∃ e, FilterNet ⟨Phase.TEST, 0, []⟩ [c6both] = Except.error e) ∧
    FilterNet ⟨Phase.TEST, 0, []⟩ [c6plain] =
      .ok ([c6plain].filter
        (fun lp => layerIncluded ⟨Phase.TEST, 0, []⟩ lp)) :=
  ⟨(graph_filter_semantics ⟨Phase.TEST, 0, []⟩ [c6both]).1
     ⟨c6both, by simp, by decide⟩,
   (graph_filter_semantics ⟨Phase.TEST, 0, []⟩ [c6plain]).2.1
     (by decide)⟩

/-- Witness for C7: an unavailable bottom name fails with the
unknown-input message; a non-in-place top whose name is already mapped
fails with the duplicate-producer message. -/
theorem assembly_error_conditions_witness :
    AppendBottom 1 "ghost" c4s =
      .error ("Unknown bottom blob " ++ "ghost") ∧
    AppendTop 1 0 c7dup c4s =
      .error ("Top blob " ++ c7dup.top.getD 0 "(automatic)" ++
        " produced by multiple sources.") :=
  ⟨(assembly_error_conditions 1 0 c7dup "ghost" c4s).1 (by decide),
   ((assembly_error_conditions 1 0 c7dup "ghost" c4s).2.2
     (by decide)).1 (by rfl)⟩

/-- Witness for C9: a TRAIN-phase description makes `Init` abort at the
phase check. -/
theorem phase_forced_test_witness :
    NetInit trainParam =
      .error "CHECK_EQ failed: in_param.state().phase() == TEST" :=
  (phase_forced_test trainParam).2.2.1 (by decide)

/-- Witness for C10: after consuming "data", the name is gone from the
available set (the map still resolves it) and a second consumption
fails. -/
theorem consume_removes_availability_witness :
    "data" ∉ c10after.available_blobs ∧
    AppendBottom 2 "data" c10after =
      .error ("Unknown bottom blob " ++ "data") :=
  ⟨((consume_removes_availability 1 "data" c4s c10after 0 (by decide)
      (by rfl) (by rfl)).1).1,
   ((consume_removes_availability 1 "data" c4s c10after 0 (by decide)
      (by rfl) (by rfl)).1).2.2.2 2⟩

end Caffe
